import Mathlib

/-!
# OS identity resolution (`os.go`)

A shallow embedding of `genOSRelease` and `getOSInfo` together with the
library primitives they call, followed by theorems about them.

Go strings are embedded as lists of characters (`Str`).  Every character the
code inspects (`"`, newline, carriage return, space, `(`, `.`, the digits and
the letters of the key literals) is ASCII, so the byte-level behaviour of the
Go library functions coincides with the character-level one used here.
-/

namespace Sysinfo

/-- Go strings (file contents, record fields). Paths stay Lean strings. -/
abbrev Str := List Char

/-! ## The record -/

/-- OS information (`type OS struct`). -/
structure OS where
  Name : Str
  Vendor : Str
  Version : Str
  Release : Str
  Architecture : Str
deriving DecidableEq, Repr

/-- The receiver of `getOSInfo`; only its `OS` field is touched by `os.go`. -/
structure SysInfo where
  OS : OS
deriving DecidableEq, Repr

/-- The zero value of the receiver: every field is the empty string. -/
def fresh : SysInfo := ⟨⟨[], [], [], [], []⟩⟩

/-! ## Constants -/

def osReleaseFile : String := "/etc/os-release"

def osReleaseFileT : String := "/dev/shm/os-release"

def centOS6Template : Str :=
  ("NAME=\"CentOS Linux\"\n" ++
   "VERSION=\"6 %s\"\n" ++
   "ID=\"centos\"\n" ++
   "ID_LIKE=\"rhel fedora\"\n" ++
   "VERSION_ID=\"6\"\n" ++
   "PRETTY_NAME=\"CentOS Linux 6 %s\"\n" ++
   "ANSI_COLOR=\"0;31\"\n" ++
   "CPE_NAME=\"cpe:/o:centos:centos:6\"\n" ++
   "HOME_URL=\"https://www.centos.org/\"\n" ++
   "BUG_REPORT_URL=\"https://bugs.centos.org/\"").toList

/-! ## The file system -/

/-- A regular file: its content and whether opening it for reading succeeds. -/
structure File where
  content : Str
  readable : Bool
deriving DecidableEq, Repr

/-- The file system as the code observes it: which paths hold a file, at which
paths creating or truncating a file succeeds, at which paths `os.Remove` of
the file succeeds, and at which paths without a file `os.Stat` fails with an
error other than `ENOENT` (`ENOTDIR`, `EACCES` on a parent and the like).
Directories are not represented. -/
structure FS where
  file : String → Option File
  canWrite : String → Bool
  canRemove : String → Bool
  statErr : String → Bool

/-- The process state outside the receiver: the file system and the
package-level variable `osRelease`. -/
structure World where
  fs : FS
  osRelease : Bool

/-- Whether `os.Stat(path)` reports `err == nil`. -/
def FS.exists (fs : FS) (path : String) : Bool := (fs.file path).isSome

/-- Go `os.Open(path)`: the content to be read, or `none` when `err != nil`. -/
def FS.open (fs : FS) (path : String) : Option Str :=
  match fs.file path with
  | some f => if f.readable then some f.content else none
  | none => none

/-- Whether `os.Stat(path)` fails with an error that `os.IsNotExist` accepts:
nothing is at the path, and the lookup itself did not fail otherwise. -/
def FS.notExist (fs : FS) (path : String) : Bool :=
  (fs.file path).isNone && !fs.statErr path

/-- Go `os.Remove(path)` with its error ignored, as the deferred call in
`getOSInfo` does: the file is gone afterwards when the removal succeeds, and
nothing changes when it fails. -/
def FS.remove (fs : FS) (path : String) : FS :=
  if fs.canRemove path then
    { fs with file := fun p => if p = path then none else fs.file p }
  else fs

/-- Go `unicode.IsSpace`, the white space cut by `strings.TrimSpace`. -/
def isSpace (c : Char) : Bool :=
  let n := c.toNat
  (9 ≤ n && n ≤ 13) || n == 32 || n == 0x85 || n == 0xA0 || n == 0x1680 ||
  (0x2000 ≤ n && n ≤ 0x200A) || n == 0x2028 || n == 0x2029 || n == 0x202F ||
  n == 0x205F || n == 0x3000

/-- Go `strings.TrimSpace`. -/
def trimSpace (s : Str) : Str := (s.dropWhile isSpace).rdropWhile isSpace

/-- Modelled from the spec: `slurpFile` is declared outside `os.go`.  It reads
the whole file and returns it trimmed ("entire trimmed file content"), and the
empty string on failure ("read whole file, return empty string on failure"). -/
def slurpFile (fs : FS) (path : String) : Str :=
  match fs.open path with
  | some c => trimSpace c
  | none => []

/-- Modelled from the spec: `spewFile` is declared outside `os.go`.  It writes
the data to the path ("write file with given permissions"; the synthesized
file is "world-readable/writable"), and a failed write changes nothing. -/
def spewFile (fs : FS) (path : String) (data : Str) : FS :=
  if fs.canWrite path then
    { fs with file := fun p => if p = path then some ⟨data, true⟩ else fs.file p }
  else fs

/-! ## Library primitives -/

/-- The double quote, the cutset of the calls of `strings.Trim`. -/
def dquote : Char := Char.ofNat 34

/-- Go `strings.Trim` with the cutset of one double quote: all leading and trailing double quotes go. -/
def trimQuote (s : Str) : Str :=
  (s.dropWhile (· == dquote)).rdropWhile (· == dquote)

/-- Go `fmt.Sprintf` for the verb `%s` (and `%%`); other verbs are copied
unchanged and surplus arguments are dropped, neither occurs in `os.go`. -/
def sprintf : Str → List Str → Str
  | [], _ => []
  | c :: fmt, args =>
    if c = '%' then
      match fmt, args with
      | [], _ => "%!(NOVERB)".toList
      | v :: fmt', [] =>
        if v = 's' then "%!s(MISSING)".toList ++ sprintf fmt' []
        else if v = '%' then '%' :: sprintf fmt' []
        else c :: v :: sprintf fmt' []
      | v :: fmt', a :: args' =>
        if v = 's' then a ++ sprintf fmt' args'
        else if v = '%' then '%' :: sprintf fmt' (a :: args')
        else c :: v :: sprintf fmt' (a :: args')
    else c :: sprintf fmt args

/-- Input cut at every newline; a non-empty tail after the last newline is a
line too (`bufio.ScanLines` before `dropCR`). -/
def rawLines : Str → List Str
  | [] => []
  | c :: cs =>
    if c = '\n' then [] :: rawLines cs
    else
      match rawLines cs with
      | [] => [[c]]
      | l :: ls => (c :: l) :: ls

/-- Go `dropCR`: one trailing carriage return is dropped. -/
def dropCR (l : Str) : Str :=
  if l.getLast? = some '\r' then l.dropLast else l

/-- Go `bufio.MaxScanTokenSize`, the size of the scanner's buffer: 64 KiB. -/
def maxScanTokenSize : Nat := 64 * 1024

/-- The length in bytes of the UTF-8 encoding, the length Go counts. -/
def byteLen (s : Str) : Nat := (s.map Char.utf8Size).sum

/-- All the lines of the input as `bufio.ScanLines` cuts them, whatever their
length. -/
def fileLines (s : Str) : List Str := (rawLines s).map dropCR

/-- The tokens `bufio.Scanner.Scan` yields with the default split function
`bufio.ScanLines` and the default buffer.  A line and its newline must fit
into the buffer of `maxScanTokenSize` bytes: at the first line of that many
bytes or more `Scan` returns `false` with `ErrTooLong`, and the loop in
`getOSInfo`, which never looks at `s.Err()`, ends there. -/
def scanLines (s : Str) : List Str :=
  ((rawLines s).takeWhile fun l => decide (byteLen l < maxScanTokenSize)).map dropCR

/-! ## The regular expressions

Each function is `FindStringSubmatch` of the pattern: `none` for `nil`,
otherwise the list `m` of the whole match and the capture groups. -/

/-- The dot of Go's `regexp`: any character except newline. -/
def isDot (c : Char) : Bool := c != '\n'

/-- The class `[\d\.]`. -/
def isDigitDot (c : Char) : Bool := c.isDigit || c == '.'

/-- String `s` without the literal prefix `p`, when it starts with `p`. -/
def stripLit : Str → Str → Option Str
  | [], s => some s
  | _ :: _, [] => none
  | p :: ps, c :: cs => if p = c then stripLit ps cs else none

/-- The shape `^KEY(.*)$`: the literal, then the rest up to the end of the
text, which `.` must be able to cross. -/
def reKey (key : Str) (s : Str) : Option (List Str) :=
  match stripLit key s with
  | some rest => if rest.all isDot then some [s, rest] else none
  | none => none

/-- Pattern `^PRETTY_NAME=(.*)$`. -/
def rePrettyName : Str → Option (List Str) := reKey "PRETTY_NAME=".toList

/-- Pattern `^ID=(.*)$`. -/
def reID : Str → Option (List Str) := reKey "ID=".toList

/-- Pattern `^VERSION_ID=(.*)$`. -/
def reVersionID : Str → Option (List Str) := reKey "VERSION_ID=".toList

/-- Pattern `[\( ]([\d\.]+)`: the leftmost `(` or space that a digit or dot follows,
and the longest run of digits and dots after it. -/
def reUbuntu : Str → Option (List Str)
  | [] => none
  | c :: cs =>
    if (c == '(' || c == ' ') && (cs.takeWhile isDigitDot != []) then
      some [c :: cs.takeWhile isDigitDot, cs.takeWhile isDigitDot]
    else reUbuntu cs

/-- The tail ` release ([\d\.]+) ` of `reCentOS`, after the text `pre` that
was matched before it; `g1` is what group 1 captured. -/
def reCentOSTail (pre g1 s : Str) : Option (List Str) :=
  match stripLit " release ".toList s with
  | some rest =>
    let run := rest.takeWhile isDigitDot
    if run != [] && (rest.dropWhile isDigitDot).head? == some ' ' then
      some [pre ++ " release ".toList ++ run ++ [' '], g1, run]
    else none
  | none => none

/-- Pattern `^CentOS( Linux)? release ([\d\.]+) `: the optional group is tried first
with ` Linux`, then empty. -/
def reCentOS (s : Str) : Option (List Str) :=
  match stripLit "CentOS".toList s with
  | some rest =>
    match (stripLit " Linux".toList rest).bind
        (reCentOSTail "CentOS Linux".toList " Linux".toList) with
    | some m => some m
    | none => reCentOSTail "CentOS".toList [] rest
  | none => none

/-- Pattern `^CentOS release 6\.\d (.*)`: group 1 runs to the end of the first line. -/
def reCentOS6 (s : Str) : Option (List Str) :=
  match stripLit "CentOS release 6.".toList s with
  | some (d :: sp :: rest) =>
    if d.isDigit && sp == ' ' then
      some ["CentOS release 6.".toList ++ d :: sp :: rest.takeWhile isDot,
            rest.takeWhile isDot]
    else none
  | _ => none

/-- The element `m[i]` of a submatch list. -/
def sub (m : List Str) (i : Nat) : Str := m.getD i []

/-! ## The program -/

/-- Function `genOSRelease`: the returned flag and the file system afterwards. -/
def genOSRelease (fs : FS) : Bool × FS :=
  let release := slurpFile fs "/etc/centos-release"
  if release ≠ [] then
    match reCentOS6 release with
    | some m => (false, spewFile fs osReleaseFileT (sprintf centOS6Template [sub m 1, sub m 1]))
    | none => (true, fs)
  else (true, fs)

/-- The architecture probe at the head of `getOSInfo`. -/
def probeArch (fs : FS) (os : OS) : OS :=
  if fs.exists "/lib64/ld-linux-x86-64.so.2" then { os with Architecture := "amd64".toList }
  else if fs.exists "/lib/ld-linux.so.2" then { os with Architecture := "i386".toList }
  else os

/-- The body of the `for s.Scan()` loop, for the line `s.Text()`. -/
def scanStep (os : OS) (text : Str) : OS :=
  match rePrettyName text with
  | some m => { os with Name := trimQuote (sub m 1) }
  | none =>
    match reID text with
    | some m => { os with Vendor := trimQuote (sub m 1) }
    | none =>
      match reVersionID text with
      | some m => { os with Version := trimQuote (sub m 1) }
      | none => os

/-- The scanner loop over the content of the opened file. -/
def scanLoop (content : Str) (os : OS) : OS := (scanLines content).foldl scanStep os

/-- The `switch si.OS.Vendor` at the end of `getOSInfo`. -/
def vendorSwitch (fs : FS) (os : OS) : OS :=
  if os.Vendor = "debian".toList then
    { os with Release := slurpFile fs "/etc/debian_version" }
  else if os.Vendor = "ubuntu".toList then
    match reUbuntu os.Name with
    | some m => { os with Release := sub m 1 }
    | none => os
  else if os.Vendor = "centos".toList then
    let release := slurpFile fs "/etc/centos-release"
    if release ≠ [] then
      match reCentOS release with
      | some m => { os with Release := sub m 2 }
      | none => os
    else os
  else os

/-- What follows the opening of the metadata file: return at once when the
open failed, otherwise scan the file and run the vendor switch. -/
def afterOpen (fs : FS) (f : Option Str) (os : OS) : OS :=
  match f with
  | none => os
  | some content => vendorSwitch fs (scanLoop content os)

/-- Method `getOSInfo`: the receiver and the world after the call.  The first
branch is taken when `os.IsNotExist(err)` holds for the `os.Stat` of the
canonical file; any other outcome of that `os.Stat` takes the `else` branch.
The deferred `os.Remove(osReleaseFileT)` is registered before the check of the
open error, so it runs on both ways out of the first branch. -/
def getOSInfo (w : World) (si : SysInfo) : SysInfo × World :=
  let os := probeArch w.fs si.OS
  if w.fs.notExist osReleaseFile then
    let g := genOSRelease w.fs
    let f := g.2.open osReleaseFileT
    (⟨afterOpen g.2 f os⟩, ⟨g.2.remove osReleaseFileT, g.1⟩)
  else
    let f := w.fs.open osReleaseFile
    (⟨afterOpen w.fs f os⟩, w)

/-! ## Notions used in the statements -/

/-- The fields the scanner loop assigns. -/
inductive Key
  | name
  | vendor
  | version
deriving DecidableEq, Repr

/-- The assignment of a value to a field of the record. -/
def Key.assign : Key → Str → OS → OS
  | .name, v, os => { os with Name := v }
  | .vendor, v, os => { os with Vendor := v }
  | .version, v, os => { os with Version := v }

/-- The field a line assigns and the value it receives, following the
`if` / `else if` chain of the loop body. -/
def classify (text : Str) : Option (Key × Str) :=
  match rePrettyName text with
  | some m => some (.name, trimQuote (sub m 1))
  | none =>
    match reID text with
    | some m => some (.vendor, trimQuote (sub m 1))
    | none =>
      match reVersionID text with
      | some m => some (.version, trimQuote (sub m 1))
      | none => none

/-- The line matches none of the three patterns of the scanner loop. -/
def matchesNone (l : Str) : Prop :=
  rePrettyName l = none ∧ reID l = none ∧ reVersionID l = none

/-- A digit or a dot. -/
def DigitOrDot (c : Char) : Prop := c.isDigit = true ∨ c = '.'

/-- The text has a position holding `(` or a space that a digit or dot follows at once. -/
def HasTokenStart (s : Str) : Prop :=
  ∃ a x y b, s = a ++ x :: y :: b ∧ (x = '(' ∨ x = ' ') ∧ DigitOrDot y

/-- The string `run` is the first dotted numeric token of `s`. -/
def FirstToken (s run : Str) : Prop :=
  ∃ pre c post, s = pre ++ c :: run ++ post ∧ (c = '(' ∨ c = ' ') ∧ run ≠ [] ∧
    (∀ x ∈ run, DigitOrDot x) ∧ (∀ x, post.head? = some x → ¬ DigitOrDot x) ∧
    ¬ HasTokenStart (pre ++ [c])

/-- A file system holding the listed readable files, where every write and
every removal succeeds and `os.Stat` fails only for want of a file. -/
def FS.ofList (l : List (String × String)) : FS :=
  ⟨fun p => (l.lookup p).map fun c => ⟨c.toList, true⟩, fun _ => true, fun _ => true,
    fun _ => false⟩

/-- The canonical file of an Ubuntu 20.04.1 system. -/
def ubuntuWorld : World :=
  ⟨FS.ofList [(osReleaseFile,
    "PRETTY_NAME=\"Ubuntu 20.04.1 LTS\"\nID=ubuntu\nVERSION_ID=\"20.04\"\n")], true⟩

/-- The lines of the synthesized file for the arguments `a` and `b` of the template. -/
def templateLines (a b : Str) : List Str :=
  ["NAME=\"CentOS Linux\"".toList,
   "VERSION=\"6 ".toList ++ a ++ "\"".toList,
   "ID=\"centos\"".toList,
   "ID_LIKE=\"rhel fedora\"".toList,
   "VERSION_ID=\"6\"".toList,
   "PRETTY_NAME=\"CentOS Linux 6 ".toList ++ b ++ "\"".toList,
   "ANSI_COLOR=\"0;31\"".toList,
   "CPE_NAME=\"cpe:/o:centos:centos:6\"".toList,
   "HOME_URL=\"https://www.centos.org/\"".toList,
   "BUG_REPORT_URL=\"https://bugs.centos.org/\"".toList]

/-- The values of the `PRETTY_NAME` lines of a metadata file, as captured. -/
def prettyNames (content : Str) : List Str :=
  (fileLines content).filterMap fun l => (rePrettyName l).map fun m => sub m 1

/-- The text up to the first newline. -/
def firstLine (rest : Str) : Str := rest.takeWhile isDot

/-- The legacy text `CentOS release 6.<d> <rest>`. -/
def legacy (d : Char) (rest : Str) : Str := "CentOS release 6.".toList ++ d :: ' ' :: rest

/-- No canonical file, the legacy file of a CentOS 6.5 system. -/
def centos65World : World :=
  ⟨FS.ofList [("/etc/centos-release", "CentOS release 6.5 (Final)")], true⟩

/-- The text `r` is `c` without its leading and trailing white space. -/
def IsTrimOf (c r : Str) : Prop :=
  ∃ a b, c = a ++ r ++ b ∧ (∀ x ∈ a, isSpace x = true) ∧ (∀ x ∈ b, isSpace x = true) ∧
    (∀ x, r.head? = some x → isSpace x = false) ∧ (∀ x, r.getLast? = some x → isSpace x = false)

/-- A Debian system: the canonical file and the version file. -/
def debianWorld : World :=
  ⟨FS.ofList [(osReleaseFile, "PRETTY_NAME=\"Debian GNU/Linux 11 (bullseye)\"\nID=debian\n"),
    ("/etc/debian_version", "11.1\n")], true⟩

/-- No canonical file, a legacy file that is not of the CentOS 6 form. -/
def centos7World : World :=
  ⟨FS.ofList [("/etc/centos-release", "CentOS release 7.0 (Final)")], true⟩

/-- No canonical file, no legacy file, and a file left at the synthesized path. -/
def staleWorld : World :=
  ⟨FS.ofList [(osReleaseFileT, "ID=debian\n"), ("/etc/debian_version", "11.1\n")], true⟩

/-- The key literal, with its `=`, of each field the scanner assigns. -/
def Key.literal : Key → Str
  | .name => "PRETTY_NAME=".toList
  | .vendor => "ID=".toList
  | .version => "VERSION_ID=".toList

/-- Each of the three keys starts at most one of the lines. -/
def KeysAtMostOnce (lines : List Str) : Prop :=
  ∀ k : Key, (lines.filter fun l => k.literal.isPrefixOf l).length ≤ 1

instance (l : Str) : Decidable (matchesNone l) := by
  unfold matchesNone
  infer_instance

/-- Both loaders are present. -/
def bothLoadersWorld : World :=
  ⟨FS.ofList [("/lib64/ld-linux-x86-64.so.2", ""), ("/lib/ld-linux.so.2", "")], true⟩

/-- Only the 32-bit loader is present. -/
def loader32World : World :=
  ⟨FS.ofList [("/lib/ld-linux.so.2", "")], true⟩

/-- No canonical file, a file left at the synthesized path, and a CentOS 6
legacy file. -/
def staleCentosWorld : World :=
  ⟨FS.ofList [(osReleaseFileT, "ID=debian\n"),
    ("/etc/centos-release", "CentOS release 6.5 (Final)\n")], true⟩

/-- The lines of a file that start with the given text. -/
def linesWith (key : Str) (content : Str) : List Str :=
  (fileLines content).filter fun l => key.isPrefixOf l

/-- No canonical file, the legacy file of a CentOS 6.10 system. -/
def centos610World : World :=
  ⟨FS.ofList [("/etc/centos-release", "CentOS release 6.10 (Final)\n")], true⟩

/-- A CentOS 7 system: the canonical file and the legacy file. -/
def centosLinux7World : World :=
  ⟨FS.ofList [(osReleaseFile, "NAME=\"CentOS Linux\"\nVERSION=\"7 (Core)\"\nID=\"centos\"\nVERSION_ID=\"7\"\nPRETTY_NAME=\"CentOS Linux 7 (Core)\"\n"),
    ("/etc/centos-release", "CentOS Linux release 7.9.2009 (Core)\n")], true⟩

/-- The canonical file of an Ubuntu system, and a file left at the synthesized path. -/
def canonicalStaleWorld : World :=
  ⟨FS.ofList [(osReleaseFile, "ID=ubuntu\n"), (osReleaseFileT, "ID=debian\n")], false⟩

instance (c : Char) : Decidable (DigitOrDot c) := by
  unfold DigitOrDot
  infer_instance

/-- A canonical file with the given `ID` and a name without any digit. -/
def vendorWorld (id : String) : World :=
  ⟨FS.ofList [(osReleaseFile, "PRETTY_NAME=Linux\nID=" ++ id ++ "\n")], true⟩

/-- The text neither starts nor ends with a double quote. -/
def NoQuoteEnds (s : Str) : Prop := s.head? ≠ some dquote ∧ s.getLast? ≠ some dquote

/-- The quote-stripped value of the last line the pattern matches, if any. -/
def lastValue (re : Str → Option (List Str)) (lines : List Str) : Option Str :=
  (lines.filterMap fun l => (re l).map fun m => trimQuote (sub m 1)).getLast?

/-- The new value of a field is that of the last line the pattern matches, and
the old value when the pattern matches no line. -/
def LastWins (re : Str → Option (List Str)) (lines : List Str) (old new : Str) : Prop :=
  (∀ pre l post m, lines = pre ++ l :: post → re l = some m → (∀ x ∈ post, re x = none) →
    new = trimQuote (sub m 1)) ∧
  ((∀ l ∈ lines, re l = none) → new = old)

/-- A file in which every key occurs twice. -/
def repeatedKeys : Str :=
  ("ID=debian\nPRETTY_NAME=\"First\"\nVERSION_ID=1\n" ++
   "PRETTY_NAME=\"Second\"\nVERSION_ID=\"2\"\nID=ubuntu\nNAME=x\n").toList

/-- A line of exactly `maxScanTokenSize` bytes, the shortest the scanner cannot
take. -/
def longLine : Str := List.replicate maxScanTokenSize 'x'

/-- A file system holding the listed readable files, given by their content as
lists of characters, where every write and every removal succeeds and
`os.Stat` fails only for want of a file. -/
def FS.ofFiles (l : List (String × Str)) : FS :=
  ⟨fun p => (l.lookup p).map fun c => ⟨c, true⟩, fun _ => true, fun _ => true, fun _ => false⟩

/-- The Ubuntu file behind a line that is too long for the scanner. -/
def longLineContent : Str :=
  longLine ++ '\n' :: "PRETTY_NAME=\"Ubuntu 20.04.1 LTS\"\nID=ubuntu\nVERSION_ID=\"20.04\"\n".toList

/-- The canonical file is `longLineContent`. -/
def longLineWorld : World := ⟨FS.ofFiles [(osReleaseFile, longLineContent)], true⟩

/-- No canonical file, and the legacy file `CentOS release 6.5 ` where nothing
follows the space after the release number. -/
def blankRestWorld : World :=
  ⟨FS.ofList [("/etc/centos-release", "CentOS release 6.5 ")], true⟩

/-- A text of 65524 bytes without a newline: the `VERSION` line of the template
filled with it is exactly `maxScanTokenSize` bytes long. -/
def longRest : Str := List.replicate (maxScanTokenSize - 12) 'x'

/-- No canonical file, and the legacy file `CentOS release 6.5 ` followed by
`longRest`. -/
def longRestWorld : World :=
  ⟨FS.ofFiles [("/etc/centos-release", legacy '5' longRest)], true⟩

/-- The world `staleWorld` where `os.Remove` fails, as in a sticky directory for
a file of another owner. -/
def stickyStaleWorld : World :=
  ⟨{ staleWorld.fs with canRemove := fun _ => false }, true⟩

/-- The world `staleWorld` where `os.Stat` of the canonical path fails with an
error other than `ENOENT`. -/
def statErrWorld : World :=
  ⟨{ staleWorld.fs with statErr := fun p => p == osReleaseFile }, true⟩

/-- A canonical file with the vendor `centos`, and the legacy file
`CentOS release 7.0 ` with nothing but the newline after the space. -/
def centos7BlankWorld : World :=
  ⟨FS.ofList [(osReleaseFile, "ID=centos\n"), ("/etc/centos-release", "CentOS release 7.0 \n")],
    true⟩

/-- The world `centos65World` where no file can be written. -/
def readOnlyWorld : World :=
  ⟨{ centos65World.fs with canWrite := fun _ => false }, true⟩

/-- A file with the lines `ID=a`, the long line and `ID=b`. -/
def splitVendorFile : Str := "ID=a".toList ++ '\n' :: (longLine ++ '\n' :: "ID=b\n".toList)

/-! ## Lemmas -/

theorem scanStep_frame (os : OS) (text : Str) :
    (scanStep os text).Release = os.Release ∧
    (scanStep os text).Architecture = os.Architecture := by
  unfold scanStep
  cases rePrettyName text <;> cases reID text <;> cases reVersionID text <;> simp

theorem foldl_scanStep_frame (lines : List Str) (os : OS) :
    (lines.foldl scanStep os).Release = os.Release ∧
    (lines.foldl scanStep os).Architecture = os.Architecture := by
  induction lines generalizing os with
  | nil => simp
  | cons l ls ih =>
    rw [List.foldl_cons]
    exact ⟨(ih _).1.trans (scanStep_frame os l).1, (ih _).2.trans (scanStep_frame os l).2⟩

theorem vendorSwitch_frame (fs : FS) (os : OS) :
    (vendorSwitch fs os).Name = os.Name ∧ (vendorSwitch fs os).Vendor = os.Vendor ∧
    (vendorSwitch fs os).Version = os.Version ∧
    (vendorSwitch fs os).Architecture = os.Architecture := by
  unfold vendorSwitch
  split
  · simp
  · split
    · cases reUbuntu os.Name <;> simp
    · split
      · simp only []
        split
        · cases reCentOS (slurpFile fs "/etc/centos-release") <;> simp
        · simp
      · simp

theorem afterOpen_Architecture (fs : FS) (f : Option Str) (os : OS) :
    (afterOpen fs f os).Architecture = os.Architecture := by
  cases f with
  | none => rfl
  | some c =>
    show (vendorSwitch fs (scanLoop c os)).Architecture = _
    rw [(vendorSwitch_frame fs _).2.2.2]
    exact (foldl_scanStep_frame _ os).2

theorem getOSInfo_arch_eq_probe (w : World) (si : SysInfo) :
    (getOSInfo w si).1.OS.Architecture = (probeArch w.fs si.OS).Architecture := by
  unfold getOSInfo
  simp only []
  split <;> exact afterOpen_Architecture _ _ _

theorem stripLit_eq_some {p s r : Str} : stripLit p s = some r ↔ s = p ++ r := by
  induction p generalizing s with
  | nil => simp [stripLit, eq_comm]
  | cons a p ih =>
    cases s with
    | nil => simp [stripLit]
    | cons c cs =>
      simp only [stripLit]
      split
      · rename_i h; subst h; simp [ih]
      · rename_i h; simp; intro h'; exact absurd h'.symm h

theorem stripLit_append (p r : Str) : stripLit p (p ++ r) = some r :=
  stripLit_eq_some.2 rfl

theorem reKey_append (key r : Str) (h : r.all isDot = true) :
    reKey key (key ++ r) = some [key ++ r, r] := by
  simp [reKey, stripLit_append, h]

theorem reKey_eq_some {key s : Str} {m : List Str} (h : reKey key s = some m) :
    ∃ r, s = key ++ r ∧ m = [s, r] := by
  unfold reKey at h
  cases hs : stripLit key s with
  | none => simp [hs] at h
  | some r =>
    simp only [hs] at h
    split at h
    · exact ⟨r, stripLit_eq_some.1 hs, by simpa [eq_comm] using h⟩
    · simp at h

theorem reKey_eq_none_of_ne {key s : Str} (h : ∀ r, s ≠ key ++ r) : reKey key s = none := by
  cases hk : reKey key s with
  | none => rfl
  | some m =>
    obtain ⟨r, hr, _⟩ := reKey_eq_some hk
    exact absurd hr (h r)

theorem scanStep_eq_classify (os : OS) (text : Str) :
    scanStep os text =
      match classify text with
      | some (k, v) => k.assign v os
      | none => os := by
  unfold scanStep classify
  cases rePrettyName text <;> cases reID text <;> cases reVersionID text <;> rfl

theorem classify_none_of_matchesNone {l : Str} (h : matchesNone l) : classify l = none := by
  obtain ⟨h1, h2, h3⟩ := h
  simp [classify, h1, h2, h3]

theorem scanStep_of_matchesNone (os : OS) {l : Str} (h : matchesNone l) : scanStep os l = os := by
  rw [scanStep_eq_classify, classify_none_of_matchesNone h]

theorem foldl_scanStep_of_matchesNone (ls : List Str) (os : OS) (h : ∀ l ∈ ls, matchesNone l) :
    ls.foldl scanStep os = os := by
  induction ls generalizing os with
  | nil => rfl
  | cons l ls ih =>
    rw [List.foldl_cons, scanStep_of_matchesNone os (h l (List.mem_cons_self _ _))]
    exact ih os fun x hx => h x (List.mem_cons_of_mem _ hx)

theorem Key.assign_comm {k₁ k₂ : Key} (h : k₁ ≠ k₂) (v₁ v₂ : Str) (os : OS) :
    k₂.assign v₂ (k₁.assign v₁ os) = k₁.assign v₁ (k₂.assign v₂ os) := by
  cases k₁ <;> cases k₂ <;> first | exact absurd rfl h | rfl

/-- Two lines whose assignments go to different fields, or one of which
assigns nothing, can be scanned in either order. -/
theorem scanStep_comm (x y : Str) (os : OS)
    (h : (classify x).map Prod.fst ≠ (classify y).map Prod.fst ∨ classify x = none ∨
      classify y = none ∨ x = y) :
    scanStep (scanStep os x) y = scanStep (scanStep os y) x := by
  simp only [scanStep_eq_classify]
  rcases h with h | h | h | h
  · cases hx : classify x with
    | none => simp
    | some a =>
      cases hy : classify y with
      | none => simp
      | some b =>
        obtain ⟨k₁, v₁⟩ := a
        obtain ⟨k₂, v₂⟩ := b
        simp only [hx, hy, Option.map_some', ne_eq, Option.some.injEq] at h
        exact Key.assign_comm h v₁ v₂ os
  · simp [h]
  · simp [h]
  · subst h; rfl

theorem rawLines_no_newline (s : Str) : ∀ l ∈ rawLines s, ∀ c ∈ l, c ≠ '\n' := by
  induction s with
  | nil => simp [rawLines]
  | cons a s ih =>
    intro l hl
    unfold rawLines at hl
    split at hl
    · rcases List.mem_cons.1 hl with h | h
      · subst h; simp
      · exact ih l h
    · rename_i hne
      cases hr : rawLines s with
      | nil =>
        simp only [hr, List.mem_singleton] at hl
        subst hl
        simpa using hne
      | cons l₀ ls =>
        simp only [hr] at hl ih
        rcases List.mem_cons.1 hl with h | h
        · subst h
          intro c hc
          rcases List.mem_cons.1 hc with h' | h'
          · subst h'; exact hne
          · exact ih l₀ (List.mem_cons_self _ _) c h'
        · exact ih l (List.mem_cons_of_mem _ h)

theorem dropCR_subset (l : Str) : ∀ c ∈ dropCR l, c ∈ l := by
  intro c hc
  unfold dropCR at hc
  split at hc
  · exact List.dropLast_subset l hc
  · exact hc

theorem fileLines_no_newline (s : Str) : ∀ l ∈ fileLines s, ∀ c ∈ l, c ≠ '\n' := by
  intro l hl
  obtain ⟨l₀, h₀, rfl⟩ := List.mem_map.1 hl
  exact fun c hc => rawLines_no_newline s l₀ h₀ c (dropCR_subset l₀ c hc)

/-- The scanner delivers an initial part of the lines of the file. -/
theorem scanLines_initial (s : Str) : scanLines s <+: fileLines s := by
  unfold scanLines fileLines
  exact List.IsPrefix.map dropCR ( List.takeWhile_prefix _)

theorem scanLines_subset (s : Str) : ∀ l ∈ scanLines s, l ∈ fileLines s :=
  fun _ hl => (scanLines_initial s).subset hl

theorem scanLines_no_newline (s : Str) : ∀ l ∈ scanLines s, ∀ c ∈ l, c ≠ '\n' :=
  fun l hl => fileLines_no_newline s l (scanLines_subset s l hl)

/-- When every line of the file is below the token limit, the scanner delivers
all of them. -/
theorem scanLines_eq_fileLines (s : Str)
    (h : ∀ l ∈ rawLines s, byteLen l < maxScanTokenSize) : scanLines s = fileLines s := by
  unfold scanLines fileLines
  rw [List.takeWhile_eq_self_iff.2 fun l hl => by simpa using h l hl]

theorem byteLen_append (a b : Str) : byteLen (a ++ b) = byteLen a + byteLen b := by
  simp [byteLen]

theorem byteLen_cons (c : Char) (s : Str) : byteLen (c :: s) = c.utf8Size + byteLen s := by
  simp [byteLen]

theorem byteLen_replicate (n : Nat) : byteLen (List.replicate n 'x') = n := by
  induction n with
  | zero => rfl
  | succ n ih =>
    rw [List.replicate_succ, byteLen_cons, ih]
    have : Char.utf8Size 'x' = 1 := by decide
    omega

theorem all_isDot_of_no_newline {r : Str} (h : ∀ c ∈ r, c ≠ '\n') : r.all isDot = true := by
  simpa [List.all_eq_true, isDot] using h

theorem classify_prettyName (n : Str) (h : ∀ c ∈ n, c ≠ '\n') :
    classify ("PRETTY_NAME=".toList ++ n) = some (.name, trimQuote n) := by
  have h0 : rePrettyName ("PRETTY_NAME=".toList ++ n) = some ["PRETTY_NAME=".toList ++ n, n] :=
    reKey_append _ _ (all_isDot_of_no_newline h)
  unfold classify
  rw [h0]
  rfl

theorem classify_id (n : Str) (h : ∀ c ∈ n, c ≠ '\n') :
    classify ("ID=".toList ++ n) = some (.vendor, trimQuote n) := by
  have h1 : rePrettyName ("ID=".toList ++ n) = none :=
    reKey_eq_none_of_ne fun r hr => by simp at hr
  have h0 : reID ("ID=".toList ++ n) = some ["ID=".toList ++ n, n] :=
    reKey_append _ _ (all_isDot_of_no_newline h)
  unfold classify
  rw [h1, h0]
  rfl

theorem classify_versionID (n : Str) (h : ∀ c ∈ n, c ≠ '\n') :
    classify ("VERSION_ID=".toList ++ n) = some (.version, trimQuote n) := by
  have h1 : rePrettyName ("VERSION_ID=".toList ++ n) = none :=
    reKey_eq_none_of_ne fun r hr => by simp at hr
  have h2 : reID ("VERSION_ID=".toList ++ n) = none :=
    reKey_eq_none_of_ne fun r hr => by simp at hr
  have h0 : reVersionID ("VERSION_ID=".toList ++ n) = some ["VERSION_ID=".toList ++ n, n] :=
    reKey_append _ _ (all_isDot_of_no_newline h)
  unfold classify
  rw [h1, h2, h0]
  rfl

theorem getOSInfo_of_canonical (w : World) (si : SysInfo) (c : Str)
    (hfile : w.fs.file osReleaseFile = some ⟨c, true⟩) :
    getOSInfo w si = (⟨vendorSwitch w.fs (scanLoop c (probeArch w.fs si.OS))⟩, w) := by
  simp [getOSInfo, FS.notExist, FS.open, hfile, afterOpen]

theorem isDigitDot_iff (c : Char) : isDigitDot c = true ↔ DigitOrDot c := by
  simp [isDigitDot, DigitOrDot]

theorem takeWhile_ne_nil_iff (p : Char → Bool) (s : Str) :
    s.takeWhile p ≠ [] ↔ ∃ y, s.head? = some y ∧ p y = true := by
  cases s with
  | nil => simp
  | cons a s =>
    by_cases h : p a = true <;> simp [List.takeWhile_cons, h]

theorem hasTokenStart_cons (c : Char) (s : Str) :
    HasTokenStart (c :: s) ↔
      ((c = '(' ∨ c = ' ') ∧ ∃ y, s.head? = some y ∧ DigitOrDot y) ∨ HasTokenStart s := by
  constructor
  · rintro ⟨a, x, y, b, h, hx, hy⟩
    cases a with
    | nil =>
      simp only [List.nil_append, List.cons.injEq] at h
      obtain ⟨rfl, rfl⟩ := h
      exact Or.inl ⟨hx, y, rfl, hy⟩
    | cons a₀ a =>
      simp only [List.cons_append, List.cons.injEq] at h
      exact Or.inr ⟨a, x, y, b, h.2, hx, hy⟩
  · rintro (⟨hc, y, hy, hd⟩ | ⟨a, x, y, b, h, hx, hy⟩)
    · cases s with
      | nil => simp at hy
      | cons y' s =>
        simp only [List.head?_cons, Option.some.injEq] at hy
        subst hy
        exact ⟨[], c, y', s, rfl, hc, hd⟩
    · exact ⟨c :: a, x, y, b, by simp [h], hx, hy⟩

theorem not_hasTokenStart_singleton (c : Char) : ¬ HasTokenStart [c] := by
  rintro ⟨a, x, y, b, h, -, -⟩
  have := congrArg List.length h
  simp at this
  omega

theorem head?_append_singleton (pre : Str) (c : Char) (t : Str) :
    (pre ++ [c]).head? = (pre ++ c :: t).head? := by
  cases pre <;> rfl

/-- What `reUbuntu` finds, stated without reference to its recursion. -/
theorem reUbuntu_spec (s : Str) :
    match reUbuntu s with
    | some m => FirstToken s (sub m 1)
    | none => ¬ HasTokenStart s := by
  induction s with
  | nil =>
    simp only [reUbuntu]
    rintro ⟨a, x, y, b, h, -, -⟩
    simp at h
  | cons c cs ih =>
    by_cases hc : ((c == '(' || c == ' ') && (cs.takeWhile isDigitDot != [])) = true
    · rw [reUbuntu, if_pos hc]
      simp only [Bool.and_eq_true, Bool.or_eq_true, beq_iff_eq, bne_iff_ne] at hc
      refine ⟨[], c, cs.dropWhile isDigitDot, ?_, hc.1, hc.2, ?_, ?_, ?_⟩
      · simp [sub]
      · intro x hx
        exact (isDigitDot_iff x).1 (List.mem_takeWhile_imp hx)
      · intro x hx hd
        have h1 : (cs.dropWhile isDigitDot).head? = some x := hx
        cases hdw : cs.dropWhile isDigitDot with
        | nil => simp [hdw] at h1
        | cons y t =>
          simp only [hdw, List.head?_cons, Option.some.injEq] at h1
          subst h1
          have := List.head_dropWhile_not isDigitDot cs (by simp [hdw])
          simp only [hdw, List.head_cons] at this
          rw [(isDigitDot_iff y).2 hd] at this
          exact absurd this (by simp)
      · exact not_hasTokenStart_singleton c
    · rw [reUbuntu, if_neg hc]
      have hc' : ¬ ((c = '(' ∨ c = ' ') ∧ ∃ y, cs.head? = some y ∧ DigitOrDot y) := by
        rintro ⟨h1, y, hy, hd⟩
        apply hc
        simp only [Bool.and_eq_true, Bool.or_eq_true, beq_iff_eq, bne_iff_ne]
        exact ⟨h1, (takeWhile_ne_nil_iff _ _).2 ⟨y, hy, (isDigitDot_iff y).2 hd⟩⟩
      cases hr : reUbuntu cs with
      | none =>
        simp only [hr] at ih ⊢
        rw [hasTokenStart_cons]
        exact fun h => h.elim hc' ih
      | some m =>
        simp only [hr] at ih ⊢
        obtain ⟨pre, d, post, hs, hd, hne, hall, hpost, hleft⟩ := ih
        refine ⟨c :: pre, d, post, by simp [hs], hd, hne, hall, hpost, ?_⟩
        rw [List.cons_append, hasTokenStart_cons]
        rintro (h | h)
        · apply hc'
          rw [hs, List.append_assoc, List.cons_append, ← head?_append_singleton]
          exact h
        · exact hleft h

theorem probeArch_frame (fs : FS) (os : OS) :
    (probeArch fs os).Name = os.Name ∧ (probeArch fs os).Vendor = os.Vendor ∧
    (probeArch fs os).Version = os.Version ∧ (probeArch fs os).Release = os.Release := by
  unfold probeArch
  split
  · simp
  · split <;> simp

theorem spewFile_file_of_ne (fs : FS) (path p : String) (data : Str) (h : p ≠ path) :
    (spewFile fs path data).file p = fs.file p := by
  unfold spewFile
  split
  · simp [h]
  · rfl

theorem genOSRelease_file_of_ne (fs : FS) (p : String) (h : p ≠ osReleaseFileT) :
    (genOSRelease fs).2.file p = fs.file p := by
  unfold genOSRelease
  simp only []
  split
  · cases reCentOS6 (slurpFile fs "/etc/centos-release") with
    | none => rfl
    | some m => exact spewFile_file_of_ne fs _ p _ h
  · rfl

theorem slurpFile_congr {fs fs' : FS} {p : String} (h : fs'.file p = fs.file p) :
    slurpFile fs' p = slurpFile fs p := by
  simp [slurpFile, FS.open, h]

/-- The record `getOSInfo` leaves: the probe, then the steps after the open,
on a file system that differs from the initial one at most at the
synthesized path. -/
theorem getOSInfo_record (w : World) (si : SysInfo) :
    ∃ fs' f, (getOSInfo w si).1.OS = afterOpen fs' f (probeArch w.fs si.OS) ∧
      ∀ p, p ≠ osReleaseFileT → fs'.file p = w.fs.file p := by
  unfold getOSInfo
  simp only []
  split
  · exact ⟨_, _, rfl, fun p hp => genOSRelease_file_of_ne w.fs p hp⟩
  · exact ⟨_, _, rfl, fun _ _ => rfl⟩

/-- On a fresh record a non-empty vendor shows that the metadata was scanned. -/
theorem getOSInfo_scanned (w : World) (h : (getOSInfo w fresh).1.OS.Vendor ≠ []) :
    ∃ fs' c, (getOSInfo w fresh).1.OS = vendorSwitch fs' (scanLoop c (probeArch w.fs fresh.OS)) ∧
      ∀ p, p ≠ osReleaseFileT → fs'.file p = w.fs.file p := by
  obtain ⟨fs', f, hrec, hfs⟩ := getOSInfo_record w fresh
  cases f with
  | none =>
    rw [hrec] at h
    exact absurd (probeArch_frame w.fs fresh.OS).2.1 h
  | some c => exact ⟨fs', c, hrec, hfs⟩

theorem scanLoop_frame (c : Str) (os : OS) :
    (scanLoop c os).Release = os.Release ∧ (scanLoop c os).Architecture = os.Architecture :=
  foldl_scanStep_frame _ os

theorem rawLines_line_cons (l r : Str) (h : ∀ c ∈ l, c ≠ '\n') :
    rawLines (l ++ '\n' :: r) = l :: rawLines r := by
  induction l with
  | nil => simp [rawLines]
  | cons a l ih =>
    have ha : a ≠ '\n' := h a (List.mem_cons_self _ _)
    rw [List.cons_append, rawLines, if_neg ha, ih fun c hc => h c (List.mem_cons_of_mem _ hc)]

theorem rawLines_last (l : Str) (hne : l ≠ []) (h : ∀ c ∈ l, c ≠ '\n') : rawLines l = [l] := by
  induction l with
  | nil => exact absurd rfl hne
  | cons a l ih =>
    have ha : a ≠ '\n' := h a (List.mem_cons_self _ _)
    rw [rawLines, if_neg ha]
    cases l with
    | nil => simp [rawLines]
    | cons b l =>
      rw [ih (by simp) fun c hc => h c (List.mem_cons_of_mem _ hc)]

set_option maxRecDepth 100000 in
theorem sprintf_template (a b : Str) :
    sprintf centOS6Template [a, b] =
      "NAME=\"CentOS Linux\"".toList ++ '\n' ::
      (("VERSION=\"6 ".toList ++ a ++ "\"".toList) ++ '\n' ::
      ("ID=\"centos\"".toList ++ '\n' ::
      ("ID_LIKE=\"rhel fedora\"".toList ++ '\n' ::
      ("VERSION_ID=\"6\"".toList ++ '\n' ::
      (("PRETTY_NAME=\"CentOS Linux 6 ".toList ++ b ++ "\"".toList) ++ '\n' ::
      ("ANSI_COLOR=\"0;31\"".toList ++ '\n' ::
      ("CPE_NAME=\"cpe:/o:centos:centos:6\"".toList ++ '\n' ::
      ("HOME_URL=\"https://www.centos.org/\"".toList ++ '\n' ::
      "BUG_REPORT_URL=\"https://bugs.centos.org/\"".toList)))))))) := by
  simp only [List.append_assoc]
  rfl

theorem dropCR_append_quote (l : Str) : dropCR (l ++ "\"".toList) = l ++ "\"".toList := by
  unfold dropCR
  rw [if_neg]
  rw [List.getLast?_append]
  simp

set_option maxRecDepth 100000 in
theorem rawLines_template (a b : Str) (ha : ∀ c ∈ a, c ≠ '\n') (hb : ∀ c ∈ b, c ≠ '\n') :
    rawLines (sprintf centOS6Template [a, b]) = templateLines a b := by
  have hq : ∀ c ∈ "\"".toList, c ≠ '\n' := by decide
  have hA : ∀ c ∈ "VERSION=\"6 ".toList, c ≠ '\n' := by decide
  have hB : ∀ c ∈ "PRETTY_NAME=\"CentOS Linux 6 ".toList, c ≠ '\n' := by decide
  have h2 : ∀ c ∈ "VERSION=\"6 ".toList ++ a ++ "\"".toList, c ≠ '\n' := by
    intro c hc
    rcases List.mem_append.1 hc with hc | hc
    · rcases List.mem_append.1 hc with hc | hc
      · exact hA c hc
      · exact ha c hc
    · exact hq c hc
  have h6 : ∀ c ∈ "PRETTY_NAME=\"CentOS Linux 6 ".toList ++ b ++ "\"".toList, c ≠ '\n' := by
    intro c hc
    rcases List.mem_append.1 hc with hc | hc
    · rcases List.mem_append.1 hc with hc | hc
      · exact hB c hc
      · exact hb c hc
    · exact hq c hc
  rw [sprintf_template,
    rawLines_line_cons _ _ (by decide), rawLines_line_cons _ _ h2,
    rawLines_line_cons _ _ (by decide), rawLines_line_cons _ _ (by decide),
    rawLines_line_cons _ _ (by decide), rawLines_line_cons _ _ h6,
    rawLines_line_cons _ _ (by decide), rawLines_line_cons _ _ (by decide),
    rawLines_line_cons _ _ (by decide), rawLines_last _ (by decide) (by decide)]
  rfl

set_option maxRecDepth 100000 in
theorem dropCR_templateLines (a b : Str) :
    (templateLines a b).map dropCR = templateLines a b := by
  simp only [templateLines, List.map_cons, List.map_nil, dropCR_append_quote]
  rfl

theorem fileLines_template (a b : Str) (ha : ∀ c ∈ a, c ≠ '\n') (hb : ∀ c ∈ b, c ≠ '\n') :
    fileLines (sprintf centOS6Template [a, b]) = templateLines a b := by
  rw [fileLines, rawLines_template a b ha hb, dropCR_templateLines]

/-- The lines of the synthesized file that the scanner delivers: all of them
when both filled lines are below the token limit, the five before the
`PRETTY_NAME` line when only the `VERSION` line is. -/
theorem scanLines_template (a b : Str) (ha : ∀ c ∈ a, c ≠ '\n') (hb : ∀ c ∈ b, c ≠ '\n')
    (hfa : byteLen a + 12 < maxScanTokenSize) :
    (byteLen b + 29 < maxScanTokenSize →
      scanLines (sprintf centOS6Template [a, b]) = templateLines a b) ∧
    (¬ byteLen b + 29 < maxScanTokenSize →
      scanLines (sprintf centOS6Template [a, b]) = (templateLines a b).take 5) := by
  have e2 : byteLen ("VERSION=\"6 ".toList ++ a ++ "\"".toList) = byteLen a + 12 := by
    rw [byteLen_append, byteLen_append]
    have h1 : byteLen "VERSION=\"6 ".toList = 11 := by decide
    have h2 : byteLen "\"".toList = 1 := by decide
    omega
  have e6 : byteLen ("PRETTY_NAME=\"CentOS Linux 6 ".toList ++ b ++ "\"".toList) =
      byteLen b + 29 := by
    rw [byteLen_append, byteLen_append]
    have h1 : byteLen "PRETTY_NAME=\"CentOS Linux 6 ".toList = 28 := by decide
    have h2 : byteLen "\"".toList = 1 := by decide
    omega
  have f1 : byteLen "NAME=\"CentOS Linux\"".toList < maxScanTokenSize := by decide
  have f3 : byteLen "ID=\"centos\"".toList < maxScanTokenSize := by decide
  have f4 : byteLen "ID_LIKE=\"rhel fedora\"".toList < maxScanTokenSize := by decide
  have f5 : byteLen "VERSION_ID=\"6\"".toList < maxScanTokenSize := by decide
  have f7 : byteLen "ANSI_COLOR=\"0;31\"".toList < maxScanTokenSize := by decide
  have f8 : byteLen "CPE_NAME=\"cpe:/o:centos:centos:6\"".toList < maxScanTokenSize := by decide
  have f9 : byteLen "HOME_URL=\"https://www.centos.org/\"".toList < maxScanTokenSize := by
    decide
  have f10 : byteLen "BUG_REPORT_URL=\"https://bugs.centos.org/\"".toList < maxScanTokenSize := by
    decide
  have f2 : byteLen ("VERSION=\"6 ".toList ++ a ++ "\"".toList) < maxScanTokenSize := by
    rw [e2]; exact hfa
  constructor
  · intro hfb
    have f6 : byteLen ("PRETTY_NAME=\"CentOS Linux 6 ".toList ++ b ++ "\"".toList) <
        maxScanTokenSize := by rw [e6]; exact hfb
    rw [scanLines, rawLines_template a b ha hb]
    have hall : (templateLines a b).takeWhile (fun l => decide (byteLen l < maxScanTokenSize)) =
        templateLines a b := by
      simp only [templateLines, List.takeWhile_cons, List.takeWhile_nil, f1, f2, f3, f4, f5, f6,
        f7, f8, f9, f10, decide_True, if_true]
    rw [hall, dropCR_templateLines]
  · intro hfb
    have f6 : ¬ byteLen ("PRETTY_NAME=\"CentOS Linux 6 ".toList ++ b ++ "\"".toList) <
        maxScanTokenSize := by rw [e6]; exact hfb
    rw [scanLines, rawLines_template a b ha hb]
    have htake : (templateLines a b).takeWhile
        (fun l => decide (byteLen l < maxScanTokenSize)) = (templateLines a b).take 5 := by
      simp only [templateLines, List.takeWhile_cons, f1, f2, f3, f4, f5, f6, decide_True,
        decide_False, if_true, if_false]
      rfl
    rw [htake, List.map_take, dropCR_templateLines]

theorem reCentOS6_legacy (d : Char) (r : Str) (hd : d.isDigit = true) :
    reCentOS6 (legacy d r) =
      some ["CentOS release 6.".toList ++ d :: ' ' :: r.takeWhile isDot, r.takeWhile isDot] := by
  unfold reCentOS6 legacy
  rw [stripLit_append]
  simp [hd]

theorem reCentOS_legacy (d : Char) (r : Str) (hd : d.isDigit = true) :
    reCentOS (legacy d r) =
      some ["CentOS release ".toList ++ ['6', '.', d, ' '], [], ['6', '.', d]] := by
  have h0 : legacy d r = "CentOS".toList ++ (" release ".toList ++ ('6' :: '.' :: d :: ' ' :: r)) := by
    simp [legacy]
  have h1 : stripLit " Linux".toList (" release ".toList ++ ('6' :: '.' :: d :: ' ' :: r)) = none := by
    simp [stripLit]
  have h2 : isDigitDot d = true := by simp [isDigitDot, hd]
  have h3 : isDigitDot '6' = true := by decide
  have h4 : isDigitDot '.' = true := by decide
  have h5 : isDigitDot ' ' = false := by decide
  unfold reCentOS
  rw [h0, stripLit_append]
  simp only [h1, Option.bind_none, reCentOSTail, stripLit_append]
  simp [List.takeWhile_cons, List.dropWhile_cons, h2, h3, h4, h5]

theorem legacy_ne_nil (d : Char) (r : Str) : legacy d r ≠ [] := by
  simp [legacy]

/-- What `genOSRelease` does when the legacy text has the CentOS 6 form. -/
theorem genOSRelease_legacy (fs : FS) (d : Char) (rest : Str) (hd : d.isDigit = true)
    (hs : slurpFile fs "/etc/centos-release" = legacy d rest) :
    genOSRelease fs = (false, spewFile fs osReleaseFileT
      (sprintf centOS6Template [firstLine rest, firstLine rest])) := by
  unfold genOSRelease
  simp only [hs, reCentOS6_legacy _ _ hd]
  rw [if_pos (legacy_ne_nil _ _)]
  rfl

theorem firstLine_no_newline (rest : Str) : ∀ c ∈ firstLine rest, c ≠ '\n' := by
  intro c hc
  have := List.mem_takeWhile_imp hc
  simpa [isDot] using this

theorem prettyNames_template (a b : Str) (ha : ∀ c ∈ a, c ≠ '\n') (hb : ∀ c ∈ b, c ≠ '\n') :
    prettyNames (sprintf centOS6Template [a, b]) =
      ["\"CentOS Linux 6 ".toList ++ b ++ "\"".toList] := by
  unfold prettyNames
  rw [fileLines_template a b ha hb]
  have hP : rePrettyName ("PRETTY_NAME=\"CentOS Linux 6 ".toList ++ b ++ "\"".toList) =
      some ["PRETTY_NAME=\"CentOS Linux 6 ".toList ++ b ++ "\"".toList,
        "\"CentOS Linux 6 ".toList ++ b ++ "\"".toList] := by
    have := reKey_append "PRETTY_NAME=".toList ("\"CentOS Linux 6 ".toList ++ b ++ "\"".toList)
      (all_isDot_of_no_newline (by
        intro c hc
        rcases List.mem_append.1 hc with hc | hc
        · rcases List.mem_append.1 hc with hc | hc
          · exact (by decide : ∀ c ∈ "\"CentOS Linux 6 ".toList, c ≠ '\n') c hc
          · exact hb c hc
        · exact (by decide : ∀ c ∈ "\"".toList, c ≠ '\n') c hc))
    simpa [rePrettyName] using this
  have hV : rePrettyName ("VERSION=\"6 ".toList ++ a ++ "\"".toList) = none :=
    reKey_eq_none_of_ne fun r hr => by simp at hr
  simp only [templateLines, List.filterMap_cons, List.filterMap_nil, hP, hV, Option.map_some',
    Option.map_none']
  rfl

/-- What the scan of the synthesized file assigns when its `VERSION` line is
below the token limit. -/
theorem scanLoop_template (a b : Str) (os : OS) (ha : ∀ c ∈ a, c ≠ '\n')
    (hb : ∀ c ∈ b, c ≠ '\n') (hfa : byteLen a + 12 < maxScanTokenSize) :
    (scanLoop (sprintf centOS6Template [a, b]) os).Vendor = "centos".toList ∧
    (scanLoop (sprintf centOS6Template [a, b]) os).Version = "6".toList ∧
    (byteLen b + 29 < maxScanTokenSize →
      (scanLoop (sprintf centOS6Template [a, b]) os).Name =
        trimQuote ("\"CentOS Linux 6 ".toList ++ b ++ "\"".toList)) := by
  have hq : ∀ c ∈ "\"".toList, c ≠ '\n' := by decide
  have hB : ∀ c ∈ "\"CentOS Linux 6 ".toList, c ≠ '\n' := by decide
  have hP : classify ("PRETTY_NAME=\"CentOS Linux 6 ".toList ++ b ++ "\"".toList) =
      some (.name, trimQuote ("\"CentOS Linux 6 ".toList ++ b ++ "\"".toList)) := by
    have := classify_prettyName ("\"CentOS Linux 6 ".toList ++ b ++ "\"".toList) (by
      intro c hc
      rcases List.mem_append.1 hc with hc | hc
      · rcases List.mem_append.1 hc with hc | hc
        · exact hB c hc
        · exact hb c hc
      · exact hq c hc)
    simpa using this
  have hV : classify ("VERSION=\"6 ".toList ++ a ++ "\"".toList) = none :=
    classify_none_of_matchesNone
      ⟨reKey_eq_none_of_ne fun r hr => by simp at hr,
       reKey_eq_none_of_ne fun r hr => by simp at hr,
       reKey_eq_none_of_ne fun r hr => by simp at hr⟩
  have h1 : classify "NAME=\"CentOS Linux\"".toList = none := by decide
  have h3 : classify "ID=\"centos\"".toList = some (.vendor, "centos".toList) := by decide
  have h4 : classify "ID_LIKE=\"rhel fedora\"".toList = none := by decide
  have h5 : classify "VERSION_ID=\"6\"".toList = some (.version, "6".toList) := by decide
  have h7 : classify "ANSI_COLOR=\"0;31\"".toList = none := by decide
  have h8 : classify "CPE_NAME=\"cpe:/o:centos:centos:6\"".toList = none := by decide
  have h9 : classify "HOME_URL=\"https://www.centos.org/\"".toList = none := by decide
  have h10 : classify "BUG_REPORT_URL=\"https://bugs.centos.org/\"".toList = none := by decide
  obtain ⟨hall, hfive⟩ := scanLines_template a b ha hb hfa
  unfold scanLoop
  by_cases hfb : byteLen b + 29 < maxScanTokenSize
  · rw [hall hfb]
    simp only [templateLines, List.foldl_cons, List.foldl_nil, scanStep_eq_classify,
      h1, hV, h3, h4, h5, hP, h7, h8, h9, h10]
    exact ⟨rfl, rfl, fun _ => rfl⟩
  · rw [hfive hfb]
    simp only [templateLines, List.take, List.foldl_cons, List.foldl_nil, scanStep_eq_classify,
      h1, hV, h3, h4, h5]
    exact ⟨rfl, rfl, fun h => absurd h hfb⟩

theorem vendorSwitch_centos (fs : FS) (os : OS) (m : List Str)
    (hv : os.Vendor = "centos".toList)
    (hne : slurpFile fs "/etc/centos-release" ≠ [])
    (hm : reCentOS (slurpFile fs "/etc/centos-release") = some m) :
    vendorSwitch fs os = { os with Release := sub m 2 } := by
  unfold vendorSwitch
  rw [if_neg (by rw [hv]; decide), if_neg (by rw [hv]; decide), if_pos hv]
  simp only [hm]
  rw [if_pos hne]

/-- The record `getOSInfo` fills in when the canonical file does not exist, the
legacy text has the CentOS 6 form, the synthesized file can be written and its
`VERSION` line is below the token limit. -/
theorem getOSInfo_legacy (w : World) (si : SysInfo) (d : Char) (rest : Str)
    (hd : d.isDigit = true)
    (hcanon : w.fs.notExist osReleaseFile = true)
    (hs : slurpFile w.fs "/etc/centos-release" = legacy d rest)
    (hw : w.fs.canWrite osReleaseFileT = true)
    (hfit : byteLen (firstLine rest) + 12 < maxScanTokenSize) :
    (getOSInfo w si).1.OS.Vendor = "centos".toList ∧
    (getOSInfo w si).1.OS.Version = "6".toList ∧
    (getOSInfo w si).1.OS.Release = ['6', '.', d] := by
  have hg := genOSRelease_legacy w.fs d rest hd hs
  have hopen : (genOSRelease w.fs).2.open osReleaseFileT =
      some (sprintf centOS6Template [firstLine rest, firstLine rest]) := by
    rw [hg]
    simp [FS.open, spewFile, hw]
  have hslurp : slurpFile (genOSRelease w.fs).2 "/etc/centos-release" = legacy d rest := by
    rw [slurpFile_congr (genOSRelease_file_of_ne w.fs _ (by decide))]
    exact hs
  obtain ⟨hven, hver, -⟩ := scanLoop_template (firstLine rest) (firstLine rest)
    (probeArch w.fs si.OS) (firstLine_no_newline rest) (firstLine_no_newline rest) hfit
  have hrec : (getOSInfo w si).1.OS = vendorSwitch (genOSRelease w.fs).2
      (scanLoop (sprintf centOS6Template [firstLine rest, firstLine rest])
        (probeArch w.fs si.OS)) := by
    unfold getOSInfo
    simp only [hcanon, hopen, afterOpen, if_true]
  rw [hrec, vendorSwitch_centos _ _ _ hven (by rw [hslurp]; exact legacy_ne_nil _ _)
    (by rw [hslurp]; exact reCentOS_legacy d _ hd)]
  exact ⟨hven, hver, rfl⟩

theorem rdropWhile_append_rtakeWhile (p : Char → Bool) (l : Str) :
    l.rdropWhile p ++ l.rtakeWhile p = l := by
  unfold List.rdropWhile List.rtakeWhile
  rw [← List.reverse_append, List.takeWhile_append_dropWhile, List.reverse_reverse]

theorem trimSpace_isTrimOf (c : Str) : IsTrimOf c (trimSpace c) := by
  refine ⟨c.takeWhile isSpace, (c.dropWhile isSpace).rtakeWhile isSpace, ?_, ?_, ?_, ?_, ?_⟩
  · unfold trimSpace
    rw [List.append_assoc, rdropWhile_append_rtakeWhile, List.takeWhile_append_dropWhile]
  · exact fun x hx => List.mem_takeWhile_imp hx
  · exact fun x hx => List.mem_rtakeWhile_imp hx
  · intro x hx
    unfold trimSpace at hx
    obtain ⟨t, ht⟩ := List.rdropWhile_prefix isSpace (l := c.dropWhile isSpace)
    cases hr : (c.dropWhile isSpace).rdropWhile isSpace with
    | nil => simp [hr] at hx
    | cons y ys =>
      rw [hr] at hx ht
      simp only [List.head?_cons, Option.some.injEq] at hx
      subst hx
      have h1 := List.head?_dropWhile_not isSpace c
      rw [← ht] at h1
      simp only [List.cons_append, List.head?_cons] at h1
      simpa using h1
  · intro x hx
    unfold trimSpace at hx
    have hne : (c.dropWhile isSpace).rdropWhile isSpace ≠ [] := by
      intro h0
      simp [h0] at hx
    have h1 := List.rdropWhile_last_not isSpace (c.dropWhile isSpace) hne
    rw [List.getLast?_eq_getLast _ hne] at hx
    simp only [Option.some.injEq] at hx
    rw [hx] at h1
    simpa using h1

theorem vendorSwitch_debian (fs : FS) (os : OS) (hv : os.Vendor = "debian".toList) :
    (vendorSwitch fs os).Release = slurpFile fs "/etc/debian_version" := by
  unfold vendorSwitch
  rw [if_pos hv]

theorem file_eq_none_of_exists_false {fs : FS} {p : String} (h : fs.exists p = false) :
    fs.file p = none := by
  simpa [FS.exists] using h

theorem FS.ext_of {fs fs' : FS} (h1 : ∀ p, fs.file p = fs'.file p)
    (h2 : ∀ p, fs.canWrite p = fs'.canWrite p) (h3 : ∀ p, fs.canRemove p = fs'.canRemove p)
    (h4 : ∀ p, fs.statErr p = fs'.statErr p) : fs = fs' := by
  cases fs; cases fs'
  simp only [FS.mk.injEq]
  exact ⟨funext h1, funext h2, funext h3, funext h4⟩

theorem genOSRelease_of_no_match (fs : FS)
    (h : fs.file "/etc/centos-release" = none ∨
      reCentOS6 (slurpFile fs "/etc/centos-release") = none) :
    genOSRelease fs = (true, fs) := by
  have h' : reCentOS6 (slurpFile fs "/etc/centos-release") = none := by
    rcases h with h | h
    · simp [slurpFile, FS.open, h, reCentOS6, stripLit]
    · exact h
  unfold genOSRelease
  simp only [h']
  split <;> rfl

theorem probeArch_congr {fs fs' : FS} (os : OS)
    (h : ∀ p, p ≠ osReleaseFileT → fs'.file p = fs.file p) :
    probeArch fs' os = probeArch fs os := by
  simp [probeArch, FS.exists, h "/lib64/ld-linux-x86-64.so.2" (by decide),
    h "/lib/ld-linux.so.2" (by decide)]

theorem vendorSwitch_congr {fs fs' : FS} (os : OS)
    (h : ∀ p, p ≠ osReleaseFileT → fs'.file p = fs.file p) :
    vendorSwitch fs' os = vendorSwitch fs os := by
  simp only [vendorSwitch, slurpFile_congr (h "/etc/debian_version" (by decide)),
    slurpFile_congr (h "/etc/centos-release" (by decide))]

theorem afterOpen_congr {fs fs' : FS} (f : Option Str) (os : OS)
    (h : ∀ p, p ≠ osReleaseFileT → fs'.file p = fs.file p) :
    afterOpen fs' f os = afterOpen fs f os := by
  cases f with
  | none => rfl
  | some c => exact vendorSwitch_congr _ h

/-- The two ways `genOSRelease` can go, for an arbitrary file system. -/
theorem genOSRelease_cases (fs : FS) :
    (∃ m, reCentOS6 (slurpFile fs "/etc/centos-release") = some m ∧
      slurpFile fs "/etc/centos-release" ≠ [] ∧
      genOSRelease fs =
        (false, spewFile fs osReleaseFileT (sprintf centOS6Template [sub m 1, sub m 1]))) ∨
    ((slurpFile fs "/etc/centos-release" = [] ∨
        reCentOS6 (slurpFile fs "/etc/centos-release") = none) ∧
      genOSRelease fs = (true, fs)) := by
  by_cases hne : slurpFile fs "/etc/centos-release" = []
  · exact Or.inr ⟨Or.inl hne, by simp [genOSRelease, hne]⟩
  · cases hm : reCentOS6 (slurpFile fs "/etc/centos-release") with
    | none => exact Or.inr ⟨Or.inr rfl, by simp [genOSRelease, hne, hm]⟩
    | some m => exact Or.inl ⟨m, rfl, hne, by simp [genOSRelease, hne, hm]⟩

theorem genOSRelease_canWrite (fs : FS) (p : String) :
    (genOSRelease fs).2.canWrite p = fs.canWrite p := by
  rcases genOSRelease_cases fs with ⟨m, -, -, h⟩ | ⟨-, h⟩
  · rw [h]
    simp only [spewFile]
    split <;> rfl
  · rw [h]

/-- The file opened at the synthesized path after `genOSRelease` is the same
on two file systems that agree away from that path, when they also agree at
it or the synthesized file gets written. -/
theorem genOSRelease_open_congr {fs fs' : FS}
    (h : ∀ p, p ≠ osReleaseFileT → fs'.file p = fs.file p)
    (hw : ∀ p, fs'.canWrite p = fs.canWrite p)
    (ht : fs'.file osReleaseFileT = fs.file osReleaseFileT ∨
      ((genOSRelease fs).1 = false ∧ fs.canWrite osReleaseFileT = true)) :
    (genOSRelease fs').2.open osReleaseFileT = (genOSRelease fs).2.open osReleaseFileT := by
  have hs : slurpFile fs' "/etc/centos-release" = slurpFile fs "/etc/centos-release" :=
    slurpFile_congr (h _ (by decide))
  rcases genOSRelease_cases fs with ⟨m, hm, hne, hg⟩ | ⟨hno, hg⟩
  · have hg' : genOSRelease fs' =
        (false, spewFile fs' osReleaseFileT (sprintf centOS6Template [sub m 1, sub m 1])) := by
      simp [genOSRelease, hs, hne, hm]
    rw [hg, hg']
    by_cases hc : fs.canWrite osReleaseFileT = true
    · simp [spewFile, hw, hc, FS.open]
    · rcases ht with ht | ht
      · simp [spewFile, hw, hc, FS.open, ht]
      · exact absurd ht.2 hc
  · have hg' : genOSRelease fs' = (true, fs') := by
      rcases hno with h0 | h0
      · simp [genOSRelease, hs, h0]
      · simp [genOSRelease, hs, h0]
    rcases ht with ht | ht
    · rw [hg, hg']
      simp [FS.open, ht]
    · rw [hg] at ht
      exact absurd ht.1 (by simp)

theorem classify_some_isPrefixOf {x : Str} {k : Key} {v : Str} (h : classify x = some (k, v)) :
    k.literal.isPrefixOf x = true := by
  unfold classify at h
  cases h1 : rePrettyName x with
  | some m =>
    simp only [h1, Option.some.injEq, Prod.mk.injEq] at h
    obtain ⟨r, hr, -⟩ := reKey_eq_some h1
    rw [← h.1, List.isPrefixOf_iff_prefix]
    exact ⟨r, hr.symm⟩
  | none =>
    simp only [h1] at h
    cases h2 : reID x with
    | some m =>
      simp only [h2, Option.some.injEq, Prod.mk.injEq] at h
      obtain ⟨r, hr, -⟩ := reKey_eq_some h2
      rw [← h.1, List.isPrefixOf_iff_prefix]
      exact ⟨r, hr.symm⟩
    | none =>
      simp only [h2] at h
      cases h3 : reVersionID x with
      | some m =>
        simp only [h3, Option.some.injEq, Prod.mk.injEq] at h
        obtain ⟨r, hr, -⟩ := reKey_eq_some h3
        rw [← h.1, List.isPrefixOf_iff_prefix]
        exact ⟨r, hr.symm⟩
      | none => simp [h3] at h

theorem two_le_length_of_mem_ne {L : List Str} {x y : Str} (hx : x ∈ L) (hy : y ∈ L)
    (hne : x ≠ y) : 2 ≤ L.length := by
  match L, hx, hy with
  | [a], hx, hy =>
    rw [List.mem_singleton] at hx hy
    exact absurd (hx.trans hy.symm) hne
  | _ :: _ :: _, _, _ => simp

/-- Under `KeysAtMostOnce`, two different lines never assign the same field. -/
theorem classify_fst_ne_of_keysAtMostOnce {lines : List Str} (hone : KeysAtMostOnce lines)
    {x y : Str} (hx : x ∈ lines) (hy : y ∈ lines) (hne : x ≠ y)
    (hcx : classify x ≠ none) (hcy : classify y ≠ none) :
    (classify x).map Prod.fst ≠ (classify y).map Prod.fst := by
  cases hx' : classify x with
  | none => exact absurd hx' hcx
  | some a =>
    cases hy' : classify y with
    | none => exact absurd hy' hcy
    | some b =>
      obtain ⟨k₁, v₁⟩ := a
      obtain ⟨k₂, v₂⟩ := b
      simp only [Option.map_some', ne_eq, Option.some.injEq]
      intro hk
      subst hk
      have h1 := classify_some_isPrefixOf hx'
      have h2 := classify_some_isPrefixOf hy'
      have := two_le_length_of_mem_ne (L := lines.filter fun l => k₁.literal.isPrefixOf l)
        (List.mem_filter.2 ⟨hx, h1⟩) (List.mem_filter.2 ⟨hy, h2⟩) hne
      exact absurd (Nat.le_trans this (hone k₁)) (by decide)

theorem reCentOS6_eq_some {s : Str} {m : List Str} (h : reCentOS6 s = some m) :
    ∃ d rest, s = legacy d rest ∧ d.isDigit = true ∧
      m = ["CentOS release 6.".toList ++ d :: ' ' :: rest.takeWhile isDot,
        rest.takeWhile isDot] := by
  unfold reCentOS6 at h
  split at h
  · rename_i d sp rest hs
    have hs' := stripLit_eq_some.1 hs
    split at h
    · rename_i hc
      simp only [Bool.and_eq_true, beq_iff_eq] at hc
      obtain ⟨hd, hsp⟩ := hc
      subst hsp
      exact ⟨d, rest, hs', hd, (Option.some.inj h).symm⟩
    · exact absurd h (by simp)
  · exact absurd h (by simp)

theorem sub_one_no_newline {s : Str} {m : List Str} (h : reCentOS6 s = some m) :
    ∀ c ∈ sub m 1, c ≠ '\n' := by
  obtain ⟨d, rest, -, -, rfl⟩ := reCentOS6_eq_some h
  exact firstLine_no_newline rest

theorem linesWith_template (a b : Str) (ha : ∀ c ∈ a, c ≠ '\n') (hb : ∀ c ∈ b, c ≠ '\n') :
    linesWith "VERSION=".toList (sprintf centOS6Template [a, b]) =
      ["VERSION=\"6 ".toList ++ a ++ "\"".toList] ∧
    linesWith "PRETTY_NAME=".toList (sprintf centOS6Template [a, b]) =
      ["PRETTY_NAME=\"CentOS Linux 6 ".toList ++ b ++ "\"".toList] ∧
    linesWith "CPE_NAME=".toList (sprintf centOS6Template [a, b]) =
      ["CPE_NAME=\"cpe:/o:centos:centos:6\"".toList] := by
  unfold linesWith
  rw [fileLines_template a b ha hb]
  simp [templateLines, List.filter_cons, List.isPrefixOf]

theorem genOSRelease_of_match (fs : FS) (m : List Str)
    (hm : reCentOS6 (slurpFile fs "/etc/centos-release") = some m) :
    genOSRelease fs =
      (false, spewFile fs osReleaseFileT (sprintf centOS6Template [sub m 1, sub m 1])) := by
  rcases genOSRelease_cases fs with ⟨m', hm', -, hg⟩ | ⟨hno, -⟩
  · rw [hm] at hm'
    cases hm'
    exact hg
  · rcases hno with h0 | h0
    · rw [h0] at hm
      exact absurd hm (by simp [reCentOS6, stripLit])
    · rw [h0] at hm
      exact absurd hm (by simp)

theorem spewFile_file_self (fs : FS) (path : String) (data : Str)
    (hw : fs.canWrite path = true) : (spewFile fs path data).file path = some ⟨data, true⟩ := by
  simp [spewFile, hw]

theorem takeWhile_run (X tail : Str) (hall : ∀ c ∈ X, DigitOrDot c) :
    (X ++ ' ' :: tail).takeWhile isDigitDot = X ∧
    (X ++ ' ' :: tail).dropWhile isDigitDot = ' ' :: tail := by
  have hX : ∀ c ∈ X, isDigitDot c = true := fun c hc => (isDigitDot_iff c).2 (hall c hc)
  have hsp : isDigitDot ' ' = false := by decide
  constructor
  · rw [List.takeWhile_append_of_pos hX, List.takeWhile_cons, hsp]
    simp
  · rw [List.dropWhile_append_of_pos hX, List.dropWhile_cons, hsp]
    simp

theorem reCentOSTail_run (pre g1 X tail : Str) (hX : X ≠ []) (hall : ∀ c ∈ X, DigitOrDot c) :
    reCentOSTail pre g1 (" release ".toList ++ (X ++ ' ' :: tail)) =
      some [pre ++ " release ".toList ++ X ++ [' '], g1, X] := by
  unfold reCentOSTail
  rw [stripLit_append]
  simp only [(takeWhile_run X tail hall).1, (takeWhile_run X tail hall).2]
  simp [hX]

theorem reCentOS_plain (X tail : Str) (hX : X ≠ []) (hall : ∀ c ∈ X, DigitOrDot c) :
    reCentOS ("CentOS release ".toList ++ X ++ ' ' :: tail) =
      some ["CentOS".toList ++ " release ".toList ++ X ++ [' '], [], X] := by
  have h0 : "CentOS release ".toList ++ X ++ ' ' :: tail =
      "CentOS".toList ++ (" release ".toList ++ (X ++ ' ' :: tail)) := by simp
  have h1 : stripLit " Linux".toList (" release ".toList ++ (X ++ ' ' :: tail)) = none := by
    simp [stripLit]
  unfold reCentOS
  rw [h0, stripLit_append]
  simp only [h1, Option.bind_none]
  exact reCentOSTail_run _ _ X tail hX hall

theorem reCentOS_linux (X tail : Str) (hX : X ≠ []) (hall : ∀ c ∈ X, DigitOrDot c) :
    reCentOS ("CentOS Linux release ".toList ++ X ++ ' ' :: tail) =
      some ["CentOS Linux".toList ++ " release ".toList ++ X ++ [' '], " Linux".toList, X] := by
  have h0 : "CentOS Linux release ".toList ++ X ++ ' ' :: tail =
      "CentOS".toList ++ (" Linux".toList ++ (" release ".toList ++ (X ++ ' ' :: tail))) := by
    simp
  unfold reCentOS
  rw [h0, stripLit_append]
  simp only [stripLit_append, Option.some_bind, reCentOSTail_run _ _ X tail hX hall]

theorem firstToken_hasTokenStart {s run : Str} (h : FirstToken s run) : HasTokenStart s := by
  obtain ⟨pre, c, post, hs, hc, hne, hall, -, -⟩ := h
  cases run with
  | nil => exact absurd rfl hne
  | cons y run' =>
    exact ⟨pre, c, y, run' ++ post, by simp [hs], hc, hall y (List.mem_cons_self _ _)⟩

theorem vendorSwitch_other (fs : FS) (os : OS) (h1 : os.Vendor ≠ "debian".toList)
    (h2 : os.Vendor ≠ "ubuntu".toList) (h3 : os.Vendor ≠ "centos".toList) :
    vendorSwitch fs os = os := by
  unfold vendorSwitch
  rw [if_neg h1, if_neg h2, if_neg h3]

theorem vendorSwitch_centos_none (fs : FS) (os : OS) (hv : os.Vendor = "centos".toList)
    (h : reCentOS (slurpFile fs "/etc/centos-release") = none) :
    vendorSwitch fs os = os := by
  unfold vendorSwitch
  rw [if_neg (by rw [hv]; decide), if_neg (by rw [hv]; decide), if_pos hv]
  simp only [h]
  split <;> rfl

theorem vendorSwitch_ubuntu_none (fs : FS) (os : OS) (hv : os.Vendor = "ubuntu".toList)
    (h : ¬ HasTokenStart os.Name) : vendorSwitch fs os = os := by
  have hspec := reUbuntu_spec os.Name
  unfold vendorSwitch
  rw [if_neg (by rw [hv]; decide), if_pos hv]
  cases hr : reUbuntu os.Name with
  | none => rfl
  | some m =>
    rw [hr] at hspec
    exact absurd (firstToken_hasTokenStart hspec) h

theorem slurpFile_of_absent {fs : FS} {p : String} (h : fs.file p = none) :
    slurpFile fs p = [] := by
  simp [slurpFile, FS.open, h]

/-- The release `getOSInfo` leaves on a fresh record is empty, or it is the one
the vendor switch sets on a record whose release is empty. -/
theorem getOSInfo_release_cases (w : World) :
    (getOSInfo w fresh).1.OS.Release = [] ∨
    ∃ fs' os, (getOSInfo w fresh).1.OS = vendorSwitch fs' os ∧ os.Release = [] ∧
      ∀ p, p ≠ osReleaseFileT → fs'.file p = w.fs.file p := by
  obtain ⟨fs', f, hrec, hfs⟩ := getOSInfo_record w fresh
  cases f with
  | none =>
    left
    rw [hrec]
    exact (probeArch_frame w.fs fresh.OS).2.2.2
  | some c =>
    right
    exact ⟨fs', scanLoop c (probeArch w.fs fresh.OS), hrec,
      (scanLoop_frame c _).1.trans (probeArch_frame w.fs fresh.OS).2.2.2, hfs⟩

theorem trimQuote_noQuoteEnds (s : Str) : NoQuoteEnds (trimQuote s) := by
  unfold NoQuoteEnds trimQuote
  constructor
  · intro hx
    obtain ⟨t, ht⟩ := List.rdropWhile_prefix (· == dquote) (l := s.dropWhile (· == dquote))
    cases hr : (s.dropWhile (· == dquote)).rdropWhile (· == dquote) with
    | nil => simp [hr] at hx
    | cons y ys =>
      rw [hr] at hx ht
      simp only [List.head?_cons, Option.some.injEq] at hx
      subst hx
      have h1 := List.head?_dropWhile_not (· == dquote) s
      rw [← ht] at h1
      simp at h1
  · intro hx
    have hne : (s.dropWhile (· == dquote)).rdropWhile (· == dquote) ≠ [] := by
      intro h0
      simp [h0] at hx
    have h1 := List.rdropWhile_last_not (· == dquote) (s.dropWhile (· == dquote)) hne
    rw [List.getLast?_eq_getLast _ hne] at hx
    simp only [Option.some.injEq] at hx
    rw [hx] at h1
    simp at h1

theorem trimQuote_self {v : Str} (h : NoQuoteEnds v) : trimQuote v = v := by
  obtain ⟨h1, h2⟩ := h
  have hd : v.dropWhile (· == dquote) = v := by
    cases v with
    | nil => rfl
    | cons a v =>
      have ha : a ≠ dquote := by simpa using h1
      simp [List.dropWhile_cons, ha]
  unfold trimQuote
  rw [hd, List.rdropWhile_eq_self_iff]
  intro hl
  rw [List.getLast?_eq_getLast _ hl] at h2
  simpa using h2

theorem trimQuote_quoted {v : Str} (h : NoQuoteEnds v) :
    trimQuote (dquote :: (v ++ [dquote])) = v := by
  have hq : (dquote == dquote) = true := by decide
  unfold trimQuote
  rw [List.dropWhile_cons, if_pos hq]
  cases v with
  | nil => decide
  | cons a v =>
    have ha : a ≠ dquote := by simpa using h.1
    have hd : (a :: v ++ [dquote]).dropWhile (· == dquote) = a :: v ++ [dquote] := by
      simp [List.dropWhile_cons, ha]
    rw [hd, List.rdropWhile_concat_pos (fun x => x == dquote) (a :: v) dquote hq]
    have := trimQuote_self h
    unfold trimQuote at this
    have hd' : (a :: v).dropWhile (· == dquote) = a :: v := by
      simp [List.dropWhile_cons, ha]
    rw [hd'] at this
    exact this

theorem classify_literal (k : Key) (n : Str) (h : ∀ c ∈ n, c ≠ '\n') :
    classify (k.literal ++ n) = some (k, trimQuote n) := by
  cases k
  · exact classify_prettyName n h
  · exact classify_id n h
  · exact classify_versionID n h

theorem scanStep_noQuoteEnds (os : OS) (text : Str)
    (h : NoQuoteEnds os.Name ∧ NoQuoteEnds os.Vendor ∧ NoQuoteEnds os.Version) :
    NoQuoteEnds (scanStep os text).Name ∧ NoQuoteEnds (scanStep os text).Vendor ∧
      NoQuoteEnds (scanStep os text).Version := by
  rw [scanStep_eq_classify]
  cases hc : classify text with
  | none => exact h
  | some a =>
    obtain ⟨k, v⟩ := a
    have hv : NoQuoteEnds v := by
      unfold classify at hc
      cases h1 : rePrettyName text with
      | some m =>
        simp only [h1, Option.some.injEq, Prod.mk.injEq] at hc
        rw [← hc.2]
        exact trimQuote_noQuoteEnds _
      | none =>
        simp only [h1] at hc
        cases h2 : reID text with
        | some m =>
          simp only [h2, Option.some.injEq, Prod.mk.injEq] at hc
          rw [← hc.2]
          exact trimQuote_noQuoteEnds _
        | none =>
          simp only [h2] at hc
          cases h3 : reVersionID text with
          | some m =>
            simp only [h3, Option.some.injEq, Prod.mk.injEq] at hc
            rw [← hc.2]
            exact trimQuote_noQuoteEnds _
          | none => simp [h3] at hc
    cases k
    · exact ⟨hv, h.2.1, h.2.2⟩
    · exact ⟨h.1, hv, h.2.2⟩
    · exact ⟨h.1, h.2.1, hv⟩

theorem foldl_scanStep_noQuoteEnds (lines : List Str) (os : OS)
    (h : NoQuoteEnds os.Name ∧ NoQuoteEnds os.Vendor ∧ NoQuoteEnds os.Version) :
    NoQuoteEnds (lines.foldl scanStep os).Name ∧ NoQuoteEnds (lines.foldl scanStep os).Vendor ∧
      NoQuoteEnds (lines.foldl scanStep os).Version := by
  induction lines generalizing os with
  | nil => exact h
  | cons l ls ih =>
    rw [List.foldl_cons]
    exact ih _ (scanStep_noQuoteEnds os l h)

theorem reID_excludes {l : Str} {m : List Str} (h : reID l = some m) :
    rePrettyName l = none := by
  obtain ⟨r, hr, -⟩ := reKey_eq_some h
  exact reKey_eq_none_of_ne fun r' hr' => by
    rw [hr] at hr'
    simp at hr'

theorem reVersionID_excludes {l : Str} {m : List Str} (h : reVersionID l = some m) :
    rePrettyName l = none ∧ reID l = none := by
  obtain ⟨r, hr, -⟩ := reKey_eq_some h
  constructor
  · exact reKey_eq_none_of_ne fun r' hr' => by
      rw [hr] at hr'
      simp at hr'
  · exact reKey_eq_none_of_ne fun r' hr' => by
      rw [hr] at hr'
      simp at hr'

/-- One step of the loop, field by field. -/
theorem scanStep_fields (os : OS) (l : Str) :
    (scanStep os l).Name =
      ((rePrettyName l).map fun m => trimQuote (sub m 1)).getD os.Name ∧
    (scanStep os l).Vendor = ((reID l).map fun m => trimQuote (sub m 1)).getD os.Vendor ∧
    (scanStep os l).Version =
      ((reVersionID l).map fun m => trimQuote (sub m 1)).getD os.Version := by
  unfold scanStep
  cases h1 : rePrettyName l with
  | some m =>
    have h2 : reID l = none := by
      cases h2 : reID l with
      | none => rfl
      | some m' => rw [reID_excludes h2] at h1; exact absurd h1 (by simp)
    have h3 : reVersionID l = none := by
      cases h3 : reVersionID l with
      | none => rfl
      | some m' => rw [(reVersionID_excludes h3).1] at h1; exact absurd h1 (by simp)
    simp [h2, h3]
  | none =>
    cases h2 : reID l with
    | some m =>
      have h3 : reVersionID l = none := by
        cases h3 : reVersionID l with
        | none => rfl
        | some m' => rw [(reVersionID_excludes h3).2] at h2; exact absurd h2 (by simp)
      simp [h3]
    | none =>
      cases h3 : reVersionID l <;> simp

theorem lastValue_cons (re : Str → Option (List Str)) (l : Str) (ls : List Str) (d : Str) :
    (lastValue re (l :: ls)).getD d =
      (lastValue re ls).getD (((re l).map fun m => trimQuote (sub m 1)).getD d) := by
  unfold lastValue
  rw [List.filterMap_cons]
  cases (re l).map fun m => trimQuote (sub m 1) with
  | none => rfl
  | some v =>
    simp only [List.getLast?_cons, Option.getD_some]

theorem lastValue_lastWins (re : Str → Option (List Str)) (lines : List Str) (old : Str) :
    LastWins re lines old ((lastValue re lines).getD old) := by
  constructor
  · intro pre l post m hl hm hpost
    have hp : (post.filterMap fun l => (re l).map fun m => trimQuote (sub m 1)) = [] := by
      rw [List.filterMap_eq_nil_iff]
      intro x hx
      rw [hpost x hx]
      rfl
    unfold lastValue
    rw [hl, List.filterMap_append, List.filterMap_cons, hm]
    simp only [Option.map_some', hp]
    rw [List.getLast?_append_of_ne_nil _ (by simp)]
    rfl
  · intro hnone
    have hp : (lines.filterMap fun l => (re l).map fun m => trimQuote (sub m 1)) = [] := by
      rw [List.filterMap_eq_nil_iff]
      intro x hx
      rw [hnone x hx]
      rfl
    unfold lastValue
    rw [hp]
    rfl

theorem longLine_cons : longLine = 'x' :: List.replicate 65535 'x' := rfl

theorem longLine_no_newline : ∀ c ∈ longLine, c ≠ '\n' := by
  intro c hc
  rw [List.eq_of_mem_replicate hc]
  decide

theorem byteLen_longLine : byteLen longLine = maxScanTokenSize :=
  byteLen_replicate maxScanTokenSize

theorem not_fits_longLine : ¬ byteLen longLine < maxScanTokenSize := by
  rw [byteLen_longLine]
  exact Nat.lt_irrefl _

theorem dropCR_longLine : dropCR longLine = longLine := by
  unfold dropCR
  rw [if_neg]
  unfold longLine
  rw [List.getLast?_replicate]
  decide

/-- A text whose first character is not the first of the key does not match it. -/
theorem reKey_eq_none_of_head {k x : Char} {key s : Str} (h : x ≠ k) :
    reKey (k :: key) (x :: s) = none :=
  reKey_eq_none_of_ne fun _ hr => h (List.cons.inj hr).1

theorem matchesNone_longLine : matchesNone longLine := by
  rw [longLine_cons]
  exact ⟨reKey_eq_none_of_head (by decide), reKey_eq_none_of_head (by decide),
    reKey_eq_none_of_head (by decide)⟩

/-- The lines of a file that starts with the long line. -/
theorem fileLines_longLine (rest : Str) :
    fileLines (longLine ++ '\n' :: rest) = longLine :: fileLines rest := by
  unfold fileLines
  rw [rawLines_line_cons _ _ longLine_no_newline, List.map_cons, dropCR_longLine]

/-- The scanner delivers nothing of a file that starts with the long line. -/
theorem scanLines_longLine (rest : Str) : scanLines (longLine ++ '\n' :: rest) = [] := by
  unfold scanLines
  rw [rawLines_line_cons _ _ longLine_no_newline, List.takeWhile_cons,
    if_neg (by simpa using not_fits_longLine)]
  rfl

/-- The scanner stops at the long line: of the lines before it, all below the
token limit, none is lost, and none after it is delivered. -/
theorem scanLines_before_longLine (pre rest : Str) (hnl : ∀ c ∈ pre, c ≠ '\n')
    (hfit : byteLen pre < maxScanTokenSize) :
    scanLines (pre ++ '\n' :: (longLine ++ '\n' :: rest)) = [dropCR pre] := by
  unfold scanLines
  rw [rawLines_line_cons _ _ hnl, rawLines_line_cons _ _ longLine_no_newline,
    List.takeWhile_cons, if_pos (by simpa using hfit), List.takeWhile_cons,
    if_neg (by simpa using not_fits_longLine)]
  rfl

theorem getOSInfo_of_notExist (w : World) (si : SysInfo)
    (h : w.fs.notExist osReleaseFile = true) :
    getOSInfo w si =
      (⟨afterOpen (genOSRelease w.fs).2 ((genOSRelease w.fs).2.open osReleaseFileT)
          (probeArch w.fs si.OS)⟩,
       ⟨(genOSRelease w.fs).2.remove osReleaseFileT, (genOSRelease w.fs).1⟩) := by
  simp [getOSInfo, h]

theorem getOSInfo_of_stat (w : World) (si : SysInfo)
    (h : w.fs.notExist osReleaseFile = false) :
    getOSInfo w si = (⟨afterOpen w.fs (w.fs.open osReleaseFile) (probeArch w.fs si.OS)⟩, w) := by
  simp [getOSInfo, h]

theorem notExist_eq_false_of_exists {fs : FS} {p : String} (h : fs.exists p = true) :
    fs.notExist p = false := by
  unfold FS.exists at h
  unfold FS.notExist
  cases hf : fs.file p with
  | none => rw [hf] at h; exact absurd h (by simp)
  | some f => rfl

theorem FS.remove_file_of_ne (fs : FS) (path p : String) (h : p ≠ path) :
    (fs.remove path).file p = fs.file p := by
  unfold FS.remove
  split
  · simp only [if_neg h]
  · rfl

theorem FS.remove_file_self (fs : FS) (path : String) :
    (fs.remove path).file path = if fs.canRemove path then none else fs.file path := by
  unfold FS.remove
  split
  · simp only [if_true]
  · rfl

theorem FS.remove_canWrite (fs : FS) (path p : String) :
    (fs.remove path).canWrite p = fs.canWrite p := by
  unfold FS.remove
  split <;> rfl

theorem FS.remove_canRemove (fs : FS) (path p : String) :
    (fs.remove path).canRemove p = fs.canRemove p := by
  unfold FS.remove
  split <;> rfl

theorem FS.remove_statErr (fs : FS) (path p : String) :
    (fs.remove path).statErr p = fs.statErr p := by
  unfold FS.remove
  split <;> rfl

/-- Removing a file that is not there changes nothing. -/
theorem FS.remove_of_none (fs : FS) (path : String) (h : fs.file path = none) :
    fs.remove path = fs := by
  apply FS.ext_of
  · intro p
    by_cases hp : p = path
    · subst hp
      rw [FS.remove_file_self, h]
      split <;> rfl
    · exact FS.remove_file_of_ne fs path p hp
  · exact FS.remove_canWrite fs path
  · exact FS.remove_canRemove fs path
  · exact FS.remove_statErr fs path

theorem genOSRelease_statErr (fs : FS) (p : String) :
    (genOSRelease fs).2.statErr p = fs.statErr p := by
  rcases genOSRelease_cases fs with ⟨m, -, -, h⟩ | ⟨-, h⟩
  · rw [h]
    simp only [spewFile]
    split <;> rfl
  · rw [h]

theorem genOSRelease_canRemove (fs : FS) (p : String) :
    (genOSRelease fs).2.canRemove p = fs.canRemove p := by
  rcases genOSRelease_cases fs with ⟨m, -, -, h⟩ | ⟨-, h⟩
  · rw [h]
    simp only [spewFile]
    split <;> rfl
  · rw [h]

theorem rdropWhile_append_of_exists (p : Char → Bool) (l r : Str)
    (h : ∃ x ∈ r, p x = false) : (l ++ r).rdropWhile p = l ++ r.rdropWhile p := by
  have hne : (r.reverse.dropWhile p) ≠ [] := by
    obtain ⟨x, hx, hpx⟩ := h
    intro h0
    have := List.dropWhile_eq_nil_iff.1 h0 x (List.mem_reverse.2 hx)
    rw [hpx] at this
    exact absurd this (by simp)
  unfold List.rdropWhile
  rw [List.reverse_append, List.dropWhile_append]
  cases hd : r.reverse.dropWhile p with
  | nil => exact absurd hd hne
  | cons a t => simp

/-- Trimming a text that starts with a character other than white space and
whose tail has such a character: only the white space at the end of the tail
goes. -/
theorem trimSpace_cons_append (a : Char) (pre tail : Str) (ha : isSpace a = false)
    (h : ∃ x ∈ tail, isSpace x = false) :
    trimSpace (a :: pre ++ tail) = a :: pre ++ tail.rdropWhile isSpace := by
  unfold trimSpace
  rw [List.cons_append, List.dropWhile_cons, ha]
  simp only [Bool.false_eq_true, if_false]
  rw [← List.cons_append]
  exact rdropWhile_append_of_exists isSpace _ tail h

theorem trimSpace_legacy (d : Char) (rest : Str) (h : ∃ x ∈ rest, isSpace x = false) :
    trimSpace (legacy d rest) = legacy d (rest.rdropWhile isSpace) := by
  have h2 : ∀ r, legacy d r = 'C' :: ("entOS release 6.".toList ++ [d, ' ']) ++ r := by
    intro r
    simp [legacy]
  rw [h2, h2]
  exact trimSpace_cons_append 'C' _ rest (by decide) h

theorem byteLen_mono {a b : Str} (h : a <+: b) : byteLen a ≤ byteLen b := by
  obtain ⟨t, rfl⟩ := h
  rw [byteLen_append]
  exact Nat.le_add_right _ _

theorem byteLen_firstLine_rdropWhile (rest : Str) :
    byteLen (firstLine (rest.rdropWhile isSpace)) ≤ byteLen rest :=
  Nat.le_trans (byteLen_mono ( List.takeWhile_prefix _))
    (byteLen_mono ( List.rdropWhile_prefix _ _))

theorem slurpFile_of_file (fs : FS) (p : String) (c : Str)
    (h : fs.file p = some ⟨c, true⟩) : slurpFile fs p = trimSpace c := by
  simp [slurpFile, FS.open, h]

/-- The scanner delivers only the first line of the synthesized file when the
filled `VERSION` line reaches the token limit. -/
theorem scanLines_template_long (a b : Str) (ha : ∀ c ∈ a, c ≠ '\n') (hb : ∀ c ∈ b, c ≠ '\n')
    (hfa : ¬ byteLen a + 12 < maxScanTokenSize) :
    scanLines (sprintf centOS6Template [a, b]) = ["NAME=\"CentOS Linux\"".toList] := by
  have e2 : byteLen ("VERSION=\"6 ".toList ++ a ++ "\"".toList) = byteLen a + 12 := by
    rw [byteLen_append, byteLen_append]
    have h1 : byteLen "VERSION=\"6 ".toList = 11 := by decide
    have h2 : byteLen "\"".toList = 1 := by decide
    omega
  have f1 : byteLen "NAME=\"CentOS Linux\"".toList < maxScanTokenSize := by decide
  have f2 : ¬ byteLen ("VERSION=\"6 ".toList ++ a ++ "\"".toList) < maxScanTokenSize := by
    rw [e2]; exact hfa
  rw [scanLines, rawLines_template a b ha hb]
  have htake : (templateLines a b).takeWhile
      (fun l => decide (byteLen l < maxScanTokenSize)) = ["NAME=\"CentOS Linux\"".toList] := by
    simp only [templateLines, List.takeWhile_cons, f1, f2, decide_True, decide_False, if_true,
      if_false]
    rfl
  rw [htake]
  decide

theorem longRest_no_newline : ∀ c ∈ longRest, c ≠ '\n' := by
  intro c hc
  rw [List.eq_of_mem_replicate hc]
  decide

theorem byteLen_longRest : byteLen longRest + 12 = maxScanTokenSize := by
  have h : byteLen longRest = maxScanTokenSize - 12 := byteLen_replicate _
  rw [h]
  rfl

theorem firstLine_longRest : firstLine longRest = longRest := by
  unfold firstLine longRest
  rw [List.takeWhile_replicate, if_pos (by decide)]

theorem slurpFile_longRestWorld :
    slurpFile longRestWorld.fs "/etc/centos-release" = legacy '5' longRest := by
  have hfile : longRestWorld.fs.file "/etc/centos-release" = some ⟨legacy '5' longRest, true⟩ :=
    rfl
  have hx : ∃ x ∈ longRest, isSpace x = false :=
    ⟨'x', List.mem_replicate.2 ⟨by decide, rfl⟩, by decide⟩
  have hr : longRest.rdropWhile isSpace = longRest := by
    unfold longRest List.rdropWhile
    rw [List.reverse_replicate, List.dropWhile_replicate, if_neg (by decide),
      List.reverse_replicate]
  rw [slurpFile_of_file _ _ _ hfile, trimSpace_legacy '5' longRest hx, hr]

/-- With the legacy file of `longRestWorld` the synthesized `VERSION` line stops
the scanner before the `ID` line, and the record stays without a vendor. -/
theorem getOSInfo_longRestWorld : (getOSInfo longRestWorld fresh).1.OS.Vendor = [] := by
  have hg := genOSRelease_legacy longRestWorld.fs '5' longRest (by decide)
    slurpFile_longRestWorld
  rw [firstLine_longRest] at hg
  have hopen : (genOSRelease longRestWorld.fs).2.open osReleaseFileT =
      some (sprintf centOS6Template [longRest, longRest]) := by
    rw [hg]
    rfl
  have hscan : ∀ os, scanLoop (sprintf centOS6Template [longRest, longRest]) os = os := by
    intro os
    unfold scanLoop
    rw [scanLines_template_long longRest longRest longRest_no_newline longRest_no_newline
      (by rw [byteLen_longRest]; exact Nat.lt_irrefl _)]
    rw [List.foldl_cons, List.foldl_nil, scanStep_eq_classify]
    have hc : classify "NAME=\"CentOS Linux\"".toList = none := by decide
    rw [hc]
  rw [getOSInfo_of_notExist longRestWorld fresh rfl, hopen]
  simp only [afterOpen, hscan]
  exact (vendorSwitch_frame _ _).2.1.trans (probeArch_frame _ _).2.1

theorem rawLines_splitVendorFile :
    rawLines splitVendorFile = ["ID=a".toList] ++ [longLine, "ID=b".toList] := by
  unfold splitVendorFile
  rw [rawLines_line_cons _ _ (by decide), rawLines_line_cons _ _ longLine_no_newline]
  rfl

theorem fileLines_splitVendorFile :
    fileLines splitVendorFile = ["ID=a".toList, longLine, "ID=b".toList] := by
  unfold fileLines
  rw [rawLines_splitVendorFile]
  simp only [List.cons_append, List.nil_append, List.map_cons, List.map_nil, dropCR_longLine]
  rfl

theorem scanLoop_splitVendorFile :
    (scanLoop splitVendorFile fresh.OS).Vendor = "a".toList := by
  unfold scanLoop splitVendorFile
  rw [scanLines_before_longLine _ _ (by decide) (by decide)]
  rfl

/-- The scanner delivers the lines before the first one that reaches the token
limit. -/
theorem scanLines_of_split (c : Str) (pre rest : List Str) (hsplit : rawLines c = pre ++ rest)
    (hpre : ∀ l ∈ pre, byteLen l < maxScanTokenSize)
    (hrest : ∀ l, rest.head? = some l → ¬ byteLen l < maxScanTokenSize) :
    scanLines c = pre.map dropCR := by
  unfold scanLines
  rw [hsplit, List.takeWhile_append_of_pos fun l hl => by simpa using hpre l hl]
  cases rest with
  | nil => simp
  | cons r rs =>
    have hr : ¬ byteLen r < maxScanTokenSize := hrest r rfl
    rw [List.takeWhile_cons, if_neg (by simpa using hr), List.append_nil]

/-- After the loop each field is the value of the last delivered line that
matches its pattern. -/
theorem scanLoop_lastWins (c : Str) (os : OS) :
    LastWins rePrettyName (scanLines c) os.Name (scanLoop c os).Name ∧
    LastWins reID (scanLines c) os.Vendor (scanLoop c os).Vendor ∧
    LastWins reVersionID (scanLines c) os.Version (scanLoop c os).Version := by
  have key : ∀ (lines : List Str) (os : OS),
      (lines.foldl scanStep os).Name = (lastValue rePrettyName lines).getD os.Name ∧
      (lines.foldl scanStep os).Vendor = (lastValue reID lines).getD os.Vendor ∧
      (lines.foldl scanStep os).Version = (lastValue reVersionID lines).getD os.Version := by
    intro lines
    induction lines with
    | nil => exact fun _ => ⟨rfl, rfl, rfl⟩
    | cons l ls ih =>
      intro os
      obtain ⟨h1, h2, h3⟩ := ih (scanStep os l)
      obtain ⟨s1, s2, s3⟩ := scanStep_fields os l
      rw [List.foldl_cons, h1, h2, h3, s1, s2, s3, lastValue_cons, lastValue_cons,
        lastValue_cons]
      exact ⟨rfl, rfl, rfl⟩
  obtain ⟨k1, k2, k3⟩ := key (scanLines c) os
  unfold scanLoop
  rw [k1, k2, k3]
  exact ⟨lastValue_lastWins _ _ _, lastValue_lastWins _ _ _, lastValue_lastWins _ _ _⟩

/-! ## The claims -/

/-- C1. On a fresh record `getOSInfo` sets `Architecture` to `amd64` whenever
`/lib64/ld-linux-x86-64.so.2` exists, whether or not `/lib/ld-linux.so.2` exists
too, to `i386` when only `/lib/ld-linux.so.2` exists, and leaves it empty when
neither path exists. -/
theorem getOSInfo_architecture (w : World) :
    (w.fs.exists "/lib64/ld-linux-x86-64.so.2" = true →
      (getOSInfo w fresh).1.OS.Architecture = "amd64".toList) ∧
    (w.fs.exists "/lib64/ld-linux-x86-64.so.2" = false →
      w.fs.exists "/lib/ld-linux.so.2" = true →
      (getOSInfo w fresh).1.OS.Architecture = "i386".toList) ∧
    (w.fs.exists "/lib64/ld-linux-x86-64.so.2" = false →
      w.fs.exists "/lib/ld-linux.so.2" = false →
      (getOSInfo w fresh).1.OS.Architecture = []) := by
  rw [getOSInfo_arch_eq_probe]
  unfold probeArch
  refine ⟨fun h => ?_, fun h h' => ?_, fun h h' => ?_⟩
  · simp [h]
  · simp [h, h']
  · simp [h, h', fresh]

/-- C1 at three file systems: both loaders (the 64-bit one takes precedence),
the 32-bit loader alone, and neither. -/
theorem getOSInfo_architecture_witness :
    (getOSInfo bothLoadersWorld fresh).1.OS.Architecture = "amd64".toList ∧
    (getOSInfo loader32World fresh).1.OS.Architecture = "i386".toList ∧
    (getOSInfo centos7World fresh).1.OS.Architecture = [] :=
  ⟨(getOSInfo_architecture bothLoadersWorld).1 (by decide),
   (getOSInfo_architecture loader32World).2.1 (by decide) (by decide),
   (getOSInfo_architecture centos7World).2.2 (by decide) (by decide)⟩

/-- C2 as stated fails: the canonical file `longLineContent` has, besides one line
for each key, one line that matches none of the patterns, but that line is
65536 bytes long and comes first, so the scanner stops before the three lines and
`Vendor` stays empty instead of being `ubuntu`. -/
theorem getOSInfo_canonical_fields_counterexample :
    longLineWorld.fs.file osReleaseFile = some ⟨longLineContent, true⟩ ∧
    (fileLines longLineContent).Perm
      (("PRETTY_NAME=".toList ++ "\"Ubuntu 20.04.1 LTS\"".toList) ::
        ("ID=".toList ++ "ubuntu".toList) :: ("VERSION_ID=".toList ++ "\"20.04\"".toList) ::
        [longLine]) ∧
    (∀ l ∈ [longLine], matchesNone l) ∧
    (getOSInfo longLineWorld fresh).1.OS.Vendor = [] ∧
    (getOSInfo longLineWorld fresh).1.OS.Vendor ≠ trimQuote "ubuntu".toList := by
  have hfile : longLineWorld.fs.file osReleaseFile = some ⟨longLineContent, true⟩ := rfl
  have hv : (getOSInfo longLineWorld fresh).1.OS.Vendor = [] := by
    rw [getOSInfo_of_canonical longLineWorld fresh longLineContent hfile]
    have hs : scanLoop longLineContent (probeArch longLineWorld.fs fresh.OS) =
        probeArch longLineWorld.fs fresh.OS := by
      unfold scanLoop longLineContent
      rw [scanLines_longLine]
      rfl
    rw [hs]
    exact (vendorSwitch_frame _ _).2.1.trans (probeArch_frame _ _).2.1
  refine ⟨hfile, ?_, ?_, hv, ?_⟩
  · unfold longLineContent
    rw [fileLines_longLine]
    exact @List.perm_append_comm Str [longLine] _
  · intro l hl
    rw [List.mem_singleton.1 hl]
    exact matchesNone_longLine
  · rw [hv]
    decide

/-- C2, amended. For a readable canonical file in which every line is shorter than
the 64 KiB token limit of the scanner and whose lines are, in any order, one line
`PRETTY_NAME=n`, one line `ID=i`, one line `VERSION_ID=v` and lines that match
none of the three patterns, `getOSInfo` on a fresh record sets `Name`, `Vendor`
and `Version` to `n`, `i` and `v` with the surrounding double quotes stripped. -/
theorem getOSInfo_canonical_fields (w : World) (c n i v : Str) (others : List Str)
    (hfile : w.fs.file osReleaseFile = some ⟨c, true⟩)
    (hfit : ∀ l ∈ rawLines c, byteLen l < maxScanTokenSize)
    (hlines : (fileLines c).Perm
      (("PRETTY_NAME=".toList ++ n) :: ("ID=".toList ++ i) :: ("VERSION_ID=".toList ++ v) ::
        others))
    (hothers : ∀ l ∈ others, matchesNone l) :
    (getOSInfo w fresh).1.OS.Name = trimQuote n ∧
    (getOSInfo w fresh).1.OS.Vendor = trimQuote i ∧
    (getOSInfo w fresh).1.OS.Version = trimQuote v := by
  rw [← scanLines_eq_fileLines c hfit] at hlines
  have hP : "PRETTY_NAME=".toList ++ n ∈ scanLines c :=
    hlines.mem_iff.2 (List.mem_cons_self _ _)
  have hI : "ID=".toList ++ i ∈ scanLines c :=
    hlines.mem_iff.2 (List.mem_cons_of_mem _ (List.mem_cons_self _ _))
  have hV : "VERSION_ID=".toList ++ v ∈ scanLines c :=
    hlines.mem_iff.2 (List.mem_cons_of_mem _ (List.mem_cons_of_mem _ (List.mem_cons_self _ _)))
  have hn : ∀ x ∈ n, x ≠ '\n' := fun x hx =>
    scanLines_no_newline c _ hP x (List.mem_append_right _ hx)
  have hi : ∀ x ∈ i, x ≠ '\n' := fun x hx =>
    scanLines_no_newline c _ hI x (List.mem_append_right _ hx)
  have hv : ∀ x ∈ v, x ≠ '\n' := fun x hx =>
    scanLines_no_newline c _ hV x (List.mem_append_right _ hx)
  have cP := classify_prettyName n hn
  have cI := classify_id i hi
  have cV := classify_versionID v hv
  have hcases : ∀ x ∈ ("PRETTY_NAME=".toList ++ n) :: ("ID=".toList ++ i) ::
      ("VERSION_ID=".toList ++ v) :: others,
      classify x = none ∨ x = "PRETTY_NAME=".toList ++ n ∨ x = "ID=".toList ++ i ∨
        x = "VERSION_ID=".toList ++ v := by
    intro x hx
    rcases List.mem_cons.1 hx with h | hx
    · exact Or.inr (Or.inl h)
    rcases List.mem_cons.1 hx with h | hx
    · exact Or.inr (Or.inr (Or.inl h))
    rcases List.mem_cons.1 hx with h | hx
    · exact Or.inr (Or.inr (Or.inr h))
    · exact Or.inl (classify_none_of_matchesNone (hothers x hx))
  have hcomm : ∀ x ∈ ("PRETTY_NAME=".toList ++ n) :: ("ID=".toList ++ i) ::
      ("VERSION_ID=".toList ++ v) :: others,
      ∀ y ∈ ("PRETTY_NAME=".toList ++ n) :: ("ID=".toList ++ i) ::
        ("VERSION_ID=".toList ++ v) :: others,
      ∀ z, scanStep (scanStep z x) y = scanStep (scanStep z y) x := by
    intro x hx y hy z
    apply scanStep_comm
    rcases hcases x hx with h | h | h | h
    · exact Or.inr (Or.inl h)
    all_goals
      rcases hcases y hy with h' | h' | h' | h'
      · exact Or.inr (Or.inr (Or.inl h'))
      all_goals
        subst h h'
        first
          | exact Or.inr (Or.inr (Or.inr rfl))
          | (refine Or.inl ?_; simp only [cP, cI, cV]; simp)
  have hfold := hlines.symm.foldl_eq' hcomm (probeArch w.fs fresh.OS)
  rw [getOSInfo_of_canonical w fresh c hfile]
  obtain ⟨h1, h2, h3, -⟩ := vendorSwitch_frame w.fs (scanLoop c (probeArch w.fs fresh.OS))
  simp only [h1, h2, h3]
  unfold scanLoop
  rw [← hfold]
  simp only [List.foldl_cons, foldl_scanStep_of_matchesNone _ _ hothers, scanStep_eq_classify,
    cP, cI, cV]
  exact ⟨rfl, rfl, rfl⟩

/-- C2, amended, at the Ubuntu file: the record has the name `Ubuntu 20.04.1 LTS`,
the vendor `ubuntu` and the version `20.04`. -/
theorem getOSInfo_canonical_fields_witness :
    (getOSInfo ubuntuWorld fresh).1.OS.Name = "Ubuntu 20.04.1 LTS".toList ∧
    (getOSInfo ubuntuWorld fresh).1.OS.Vendor = "ubuntu".toList ∧
    (getOSInfo ubuntuWorld fresh).1.OS.Version = "20.04".toList :=
  getOSInfo_canonical_fields ubuntuWorld
    "PRETTY_NAME=\"Ubuntu 20.04.1 LTS\"\nID=ubuntu\nVERSION_ID=\"20.04\"\n".toList
    "\"Ubuntu 20.04.1 LTS\"".toList "ubuntu".toList "\"20.04\"".toList [] rfl
    (by decide) (List.Perm.refl _) (by simp)

/-- C3. When the vendor parsed into a fresh record is `ubuntu`, `Release` is the
first dotted numeric token of `Name`, the longest run of digits and dots right
after the leftmost `(` or space that a digit or dot follows; when `Name` has no
such position `Release` stays empty. -/
theorem getOSInfo_ubuntu_release (w : World)
    (hv : (getOSInfo w fresh).1.OS.Vendor = "ubuntu".toList) :
    FirstToken (getOSInfo w fresh).1.OS.Name (getOSInfo w fresh).1.OS.Release ∨
    (¬ HasTokenStart (getOSInfo w fresh).1.OS.Name ∧ (getOSInfo w fresh).1.OS.Release = []) := by
  obtain ⟨fs', c, hrec, -⟩ := getOSInfo_scanned w (by rw [hv]; simp)
  rw [hrec] at hv ⊢
  have hvendor := (vendorSwitch_frame fs' (scanLoop c (probeArch w.fs fresh.OS))).2.1
  have hname := (vendorSwitch_frame fs' (scanLoop c (probeArch w.fs fresh.OS))).1
  rw [hvendor] at hv
  rw [hname]
  have hrel : (scanLoop c (probeArch w.fs fresh.OS)).Release = [] :=
    (scanLoop_frame c _).1.trans (probeArch_frame w.fs fresh.OS).2.2.2
  have hspec := reUbuntu_spec (scanLoop c (probeArch w.fs fresh.OS)).Name
  have hsw : (vendorSwitch fs' (scanLoop c (probeArch w.fs fresh.OS))).Release =
      match reUbuntu (scanLoop c (probeArch w.fs fresh.OS)).Name with
      | some m => sub m 1
      | none => (scanLoop c (probeArch w.fs fresh.OS)).Release := by
    unfold vendorSwitch
    rw [if_neg (by rw [hv]; simp), if_pos hv]
    cases reUbuntu (scanLoop c (probeArch w.fs fresh.OS)).Name <;> rfl
  rw [hsw]
  cases hr : reUbuntu (scanLoop c (probeArch w.fs fresh.OS)).Name with
  | none =>
    simp only [hr] at hspec ⊢
    exact Or.inr ⟨hspec, hrel⟩
  | some m =>
    simp only [hr] at hspec ⊢
    exact Or.inl hspec

/-- C3 at the Ubuntu file: for the name `Ubuntu 20.04.1 LTS` the release is
`20.04.1`. -/
theorem getOSInfo_ubuntu_release_witness :
    (getOSInfo ubuntuWorld fresh).1.OS.Vendor = "ubuntu".toList ∧
    FirstToken "Ubuntu 20.04.1 LTS".toList "20.04.1".toList ∧
    (getOSInfo ubuntuWorld fresh).1.OS.Name = "Ubuntu 20.04.1 LTS".toList ∧
    (getOSInfo ubuntuWorld fresh).1.OS.Release = "20.04.1".toList := by
  have hn : (getOSInfo ubuntuWorld fresh).1.OS.Name = "Ubuntu 20.04.1 LTS".toList := by decide
  have hr : (getOSInfo ubuntuWorld fresh).1.OS.Release = "20.04.1".toList := by decide
  refine ⟨by decide, ?_, hn, hr⟩
  rcases getOSInfo_ubuntu_release ubuntuWorld (by decide) with h | ⟨-, h⟩
  · rwa [hn, hr] at h
  · rw [hr] at h
    exact absurd h (by decide)

/-- C4 as stated fails: with `/etc/os-release` absent and the legacy file
`CentOS release 6.5 (Final)`, no `PRETTY_NAME` value of the file that
`genOSRelease` writes contains `6.5`. -/
theorem genOSRelease_prettyName_counterexample :
    centos65World.fs.exists osReleaseFile = false ∧
    centos65World.fs.file "/etc/centos-release" =
      some ⟨"CentOS release 6.5 (Final)".toList, true⟩ ∧
    ¬ ∃ f, (genOSRelease centos65World.fs).2.file osReleaseFileT = some f ∧
        ∃ v ∈ prettyNames f.content, "6.5".toList <:+: v := by
  refine ⟨by decide, by decide, ?_⟩
  rintro ⟨f, hf, h⟩
  have hg := genOSRelease_legacy centos65World.fs '5' "(Final)".toList (by decide) (by decide)
  have hs : (genOSRelease centos65World.fs).2.file osReleaseFileT =
      some ⟨sprintf centOS6Template [firstLine "(Final)".toList, firstLine "(Final)".toList],
        true⟩ := by
    rw [hg]
    have hw : centos65World.fs.canWrite osReleaseFileT = true := by decide
    simp only [spewFile, hw, if_true]
  rw [hs] at hf
  cases hf
  rw [prettyNames_template _ _ (firstLine_no_newline _) (firstLine_no_newline _)] at h
  revert h
  decide

/-- C4, amended. When the text read from `/etc/centos-release` is
`CentOS release 6.<d> <rest>` with `d` a digit and the write succeeds, the file
`genOSRelease` writes has exactly one `PRETTY_NAME` line and its value is
`"CentOS Linux 6 <r>"`, where `<r>` is `<rest>` up to its first newline: the
template receives the text after the release number, not `6.<d>`. -/
theorem genOSRelease_prettyName (fs : FS) (d : Char) (rest : Str) (hd : d.isDigit = true)
    (hs : slurpFile fs "/etc/centos-release" = legacy d rest)
    (hw : fs.canWrite osReleaseFileT = true) :
    ∃ synth, (genOSRelease fs).2.file osReleaseFileT = some ⟨synth, true⟩ ∧
      prettyNames synth = ["\"CentOS Linux 6 ".toList ++ firstLine rest ++ "\"".toList] := by
  refine ⟨sprintf centOS6Template [firstLine rest, firstLine rest], ?_, ?_⟩
  · rw [genOSRelease_legacy fs d rest hd hs]
    simp [spewFile, hw]
  · exact prettyNames_template _ _ (firstLine_no_newline _) (firstLine_no_newline _)

/-- C4, amended, at `CentOS release 6.5 (Final)`: the value is
`"CentOS Linux 6 (Final)"`. -/
theorem genOSRelease_prettyName_witness :
    slurpFile centos65World.fs "/etc/centos-release" = legacy '5' "(Final)".toList ∧
    ∃ synth, (genOSRelease centos65World.fs).2.file osReleaseFileT = some ⟨synth, true⟩ ∧
      prettyNames synth = ["\"CentOS Linux 6 (Final)\"".toList] :=
  ⟨by decide, genOSRelease_prettyName centos65World.fs '5' "(Final)".toList (by decide)
    (by decide) (by decide)⟩

/-- C5 as stated fails twice. For the legacy content `CentOS release 6.5 `, where
`rest` is empty, the text is trimmed before it is matched, the CentOS 6 pattern
misses its space and the record stays empty. For the legacy content of
`longRestWorld`, where `rest` is 65524 bytes long, the `VERSION` line of the
synthesized file reaches the token limit of the scanner, which stops before the
`ID` line, and the vendor stays empty. -/
theorem getOSInfo_centos6_counterexample :
    (blankRestWorld.fs.exists osReleaseFile = false ∧
      blankRestWorld.fs.file "/etc/centos-release" = some ⟨legacy '5' [], true⟩ ∧
      blankRestWorld.fs.canWrite osReleaseFileT = true ∧
      (getOSInfo blankRestWorld fresh).1 = fresh) ∧
    (longRestWorld.fs.exists osReleaseFile = false ∧
      longRestWorld.fs.file "/etc/centos-release" = some ⟨legacy '5' longRest, true⟩ ∧
      (∀ c ∈ longRest, c ≠ '\n') ∧
      longRestWorld.fs.canWrite osReleaseFileT = true ∧
      (getOSInfo longRestWorld fresh).1.OS.Vendor = []) :=
  ⟨by decide, rfl, rfl, longRest_no_newline, rfl, getOSInfo_longRestWorld⟩

/-- C5, amended. When `/etc/os-release` is absent, the content of
`/etc/centos-release` is `CentOS release 6.<d> <rest>` with `d` a digit and
`rest` a text that has a character other than white space and is shorter than
65524 bytes, and the synthesized file can be written, `getOSInfo` on a fresh
record ends with the vendor `centos`, the version `6` and the release `6.<d>`;
the release is group 2 of `reCentOS` on the text of the legacy file itself, not
a part of the synthesized file. -/
theorem getOSInfo_centos6 (w : World) (d : Char) (rest : Str) (hd : d.isDigit = true)
    (hrest : ∃ x ∈ rest, isSpace x = false)
    (hlen : byteLen rest + 12 < maxScanTokenSize)
    (hcanon : w.fs.notExist osReleaseFile = true)
    (hfile : w.fs.file "/etc/centos-release" = some ⟨legacy d rest, true⟩)
    (hw : w.fs.canWrite osReleaseFileT = true) :
    (getOSInfo w fresh).1.OS.Vendor = "centos".toList ∧
    (getOSInfo w fresh).1.OS.Version = "6".toList ∧
    (getOSInfo w fresh).1.OS.Release = ['6', '.', d] ∧
    ∃ m, reCentOS (slurpFile w.fs "/etc/centos-release") = some m ∧
      (getOSInfo w fresh).1.OS.Release = sub m 2 := by
  have hs : slurpFile w.fs "/etc/centos-release" = legacy d (rest.rdropWhile isSpace) := by
    rw [slurpFile_of_file _ _ _ hfile, trimSpace_legacy d rest hrest]
  have hfit : byteLen (firstLine (rest.rdropWhile isSpace)) + 12 < maxScanTokenSize :=
    Nat.lt_of_le_of_lt (Nat.add_le_add_right (byteLen_firstLine_rdropWhile rest) 12) hlen
  obtain ⟨h1, h2, h3⟩ := getOSInfo_legacy w fresh d _ hd hcanon hs hw hfit
  rw [h1, h2, h3, hs, reCentOS_legacy d _ hd]
  exact ⟨rfl, rfl, rfl, _, rfl, rfl⟩

/-- C5, amended, at `CentOS release 6.5 (Final)`: the release is `6.5`. -/
theorem getOSInfo_centos6_witness :
    centos65World.fs.file "/etc/centos-release" =
      some ⟨"CentOS release 6.5 (Final)".toList, true⟩ ∧
    (getOSInfo centos65World fresh).1.OS.Vendor = "centos".toList ∧
    (getOSInfo centos65World fresh).1.OS.Version = "6".toList ∧
    (getOSInfo centos65World fresh).1.OS.Release = "6.5".toList ∧
    ∃ m, reCentOS (slurpFile centos65World.fs "/etc/centos-release") = some m ∧
      (getOSInfo centos65World fresh).1.OS.Release = sub m 2 :=
  ⟨by decide, getOSInfo_centos6 centos65World '5' "(Final)".toList (by decide) (by decide)
    (by decide) (by decide) (by decide) (by decide)⟩

/-- C6. When `/etc/os-release` is absent, nothing is at `/dev/shm/os-release`,
and `/etc/centos-release` is missing or its text does not match the CentOS 6
pattern, `genOSRelease` writes nothing, `getOSInfo` leaves the file system as it
was, and on a fresh record `Name`, `Vendor`, `Version` and `Release` stay empty. -/
theorem getOSInfo_no_metadata (w : World)
    (hcanon : w.fs.exists osReleaseFile = false)
    (htemp : w.fs.exists osReleaseFileT = false)
    (hlegacy : w.fs.file "/etc/centos-release" = none ∨
      reCentOS6 (slurpFile w.fs "/etc/centos-release") = none) :
    genOSRelease w.fs = (true, w.fs) ∧
    (getOSInfo w fresh).2.fs = w.fs ∧
    (getOSInfo w fresh).1.OS.Name = [] ∧
    (getOSInfo w fresh).1.OS.Vendor = [] ∧
    (getOSInfo w fresh).1.OS.Version = [] ∧
    (getOSInfo w fresh).1.OS.Release = [] := by
  have hg := genOSRelease_of_no_match w.fs hlegacy
  have ht := file_eq_none_of_exists_false htemp
  have hc := file_eq_none_of_exists_false hcanon
  have hopen : w.fs.open osReleaseFileT = none := by simp [FS.open, ht]
  have hopen' : w.fs.open osReleaseFile = none := by simp [FS.open, hc]
  have hboth : (getOSInfo w fresh).1.OS = probeArch w.fs fresh.OS ∧
      (getOSInfo w fresh).2.fs = w.fs := by
    cases hn : w.fs.notExist osReleaseFile with
    | true =>
      rw [getOSInfo_of_notExist w fresh hn, hg]
      rw [hopen]
      exact ⟨rfl, FS.remove_of_none w.fs osReleaseFileT ht⟩
    | false =>
      rw [getOSInfo_of_stat w fresh hn]
      rw [hopen']
      exact ⟨rfl, rfl⟩
  obtain ⟨h1, h2, h3, h4⟩ := probeArch_frame w.fs fresh.OS
  rw [hboth.1]
  exact ⟨hg, hboth.2, h1, h2, h3, h4⟩

/-- C6 at the legacy file `CentOS release 7.0 (Final)`. -/
theorem getOSInfo_no_metadata_witness :
    genOSRelease centos7World.fs = (true, centos7World.fs) ∧
    (getOSInfo centos7World fresh).2.fs = centos7World.fs ∧
    (getOSInfo centos7World fresh).1.OS.Name = [] ∧
    (getOSInfo centos7World fresh).1.OS.Vendor = [] ∧
    (getOSInfo centos7World fresh).1.OS.Version = [] ∧
    (getOSInfo centos7World fresh).1.OS.Release = [] :=
  getOSInfo_no_metadata centos7World (by decide) (by decide) (Or.inr (by decide))

/-- C7. When the vendor parsed into a fresh record is `debian` and
`/etc/debian_version` is readable, `Release` is the whole content of that file
without its leading and trailing white space. -/
theorem getOSInfo_debian_release (w : World) (c : Str)
    (hv : (getOSInfo w fresh).1.OS.Vendor = "debian".toList)
    (hfile : w.fs.file "/etc/debian_version" = some ⟨c, true⟩) :
    (getOSInfo w fresh).1.OS.Release = trimSpace c ∧
    IsTrimOf c (getOSInfo w fresh).1.OS.Release := by
  obtain ⟨fs', c', hrec, hfs⟩ := getOSInfo_scanned w (by rw [hv]; simp)
  have hrel : (getOSInfo w fresh).1.OS.Release = trimSpace c := by
    rw [hrec] at hv ⊢
    rw [(vendorSwitch_frame fs' _).2.1] at hv
    rw [vendorSwitch_debian fs' _ hv,
      slurpFile_congr (hfs "/etc/debian_version" (by decide))]
    simp [slurpFile, FS.open, hfile]
  rw [hrel]
  exact ⟨rfl, trimSpace_isTrimOf c⟩

/-- C7 at the version file `11.1` followed by a newline: the release is `11.1`. -/
theorem getOSInfo_debian_release_witness :
    (getOSInfo debianWorld fresh).1.OS.Vendor = "debian".toList ∧
    debianWorld.fs.file "/etc/debian_version" = some ⟨"11.1\n".toList, true⟩ ∧
    (getOSInfo debianWorld fresh).1.OS.Release = "11.1".toList ∧
    IsTrimOf "11.1\n".toList (getOSInfo debianWorld fresh).1.OS.Release :=
  ⟨by decide, by decide,
   (getOSInfo_debian_release debianWorld "11.1\n".toList (by decide) (by decide)).1,
   (getOSInfo_debian_release debianWorld "11.1\n".toList (by decide) (by decide)).2⟩

/-- C8 as stated fails twice, both times with `/etc/os-release` absent and a file
at `/dev/shm/os-release` before the call. In `stickyStaleWorld` the deferred
`os.Remove` fails, its error is dropped, and the file is still there. In
`statErrWorld` the `os.Stat` of `/etc/os-release` fails with an error that
`os.IsNotExist` rejects, the other branch runs, and no removal is attempted. -/
theorem getOSInfo_removes_synthesized_counterexample :
    (stickyStaleWorld.fs.exists osReleaseFile = false ∧
      (getOSInfo stickyStaleWorld fresh).2.fs.exists osReleaseFileT = true) ∧
    (statErrWorld.fs.exists osReleaseFile = false ∧
      (getOSInfo statErrWorld fresh).2.fs.exists osReleaseFileT = true) := by
  decide

/-- C8, amended. Whenever `os.Stat` reports that `/etc/os-release` does not exist
and `os.Remove` of `/dev/shm/os-release` succeeds, no file is at
`/dev/shm/os-release` after `getOSInfo`, whatever `genOSRelease` did and whether
or not the open succeeded. -/
theorem getOSInfo_removes_synthesized (w : World) (si : SysInfo)
    (hcanon : w.fs.notExist osReleaseFile = true)
    (hrm : w.fs.canRemove osReleaseFileT = true) :
    (getOSInfo w si).2.fs.exists osReleaseFileT = false := by
  rw [getOSInfo_of_notExist w si hcanon]
  simp only [FS.exists]
  rw [FS.remove_file_self, genOSRelease_canRemove, hrm]
  rfl

/-- C8, amended, at three file systems: the file was synthesized; nothing was
synthesized and the open failed; a file was at the path before the call. -/
theorem getOSInfo_removes_synthesized_witness :
    (genOSRelease centos65World.fs).2.exists osReleaseFileT = true ∧
    (getOSInfo centos65World fresh).2.fs.exists osReleaseFileT = false ∧
    (genOSRelease centos7World.fs).2.open osReleaseFileT = none ∧
    (getOSInfo centos7World fresh).2.fs.exists osReleaseFileT = false ∧
    staleWorld.fs.exists osReleaseFileT = true ∧
    (getOSInfo staleWorld fresh).2.fs.exists osReleaseFileT = false :=
  ⟨by decide, getOSInfo_removes_synthesized centos65World fresh (by decide) (by decide),
   by decide, getOSInfo_removes_synthesized centos7World fresh (by decide) (by decide),
   by decide, getOSInfo_removes_synthesized staleWorld fresh (by decide) (by decide)⟩

/-- C9 as stated fails: with `/etc/os-release` absent and a file already at
`/dev/shm/os-release`, the first run scans and removes that file, and the second
run finds nothing to scan. -/
theorem getOSInfo_twice_counterexample :
    (getOSInfo (getOSInfo staleWorld fresh).2 fresh).1 ≠ (getOSInfo staleWorld fresh).1 := by
  decide

/-- C9, amended. Two runs of `getOSInfo` in sequence, each on a fresh record,
yield the same record when `/etc/os-release` exists, or no file is at
`/dev/shm/os-release` at the start, or `genOSRelease` synthesizes the file and
the write succeeds. -/
theorem getOSInfo_twice (w : World)
    (h : w.fs.exists osReleaseFile = true ∨ w.fs.exists osReleaseFileT = false ∨
      ((genOSRelease w.fs).1 = false ∧ w.fs.canWrite osReleaseFileT = true)) :
    (getOSInfo (getOSInfo w fresh).2 fresh).1 = (getOSInfo w fresh).1 := by
  cases hcanon : w.fs.notExist osReleaseFile with
  | false =>
    have hw : (getOSInfo w fresh).2 = w := by rw [getOSInfo_of_stat w fresh hcanon]
    rw [hw]
  | true =>
    have hne : ¬ w.fs.exists osReleaseFile = true := by
      intro he
      rw [notExist_eq_false_of_exists he] at hcanon
      exact absurd hcanon (by decide)
    have h2 : (getOSInfo w fresh).2.fs = (genOSRelease w.fs).2.remove osReleaseFileT := by
      rw [getOSInfo_of_notExist w fresh hcanon]
    have hoff : ∀ p, p ≠ osReleaseFileT → (getOSInfo w fresh).2.fs.file p = w.fs.file p := by
      intro p hp
      rw [h2, FS.remove_file_of_ne _ _ _ hp]
      exact genOSRelease_file_of_ne w.fs p hp
    have hcw : ∀ p, (getOSInfo w fresh).2.fs.canWrite p = w.fs.canWrite p := by
      intro p
      rw [h2, FS.remove_canWrite]
      exact genOSRelease_canWrite w.fs p
    have hse : ∀ p, (getOSInfo w fresh).2.fs.statErr p = w.fs.statErr p := by
      intro p
      rw [h2, FS.remove_statErr]
      exact genOSRelease_statErr w.fs p
    have hcanon2 : (getOSInfo w fresh).2.fs.notExist osReleaseFile = true := by
      rw [← hcanon]
      simp only [FS.notExist, hoff osReleaseFile (by decide), hse]
    have ht : (getOSInfo w fresh).2.fs.file osReleaseFileT = w.fs.file osReleaseFileT ∨
        ((genOSRelease w.fs).1 = false ∧ w.fs.canWrite osReleaseFileT = true) := by
      rcases h with h | h | h
      · exact absurd h hne
      · have h0 := file_eq_none_of_exists_false h
        rcases genOSRelease_cases w.fs with ⟨m, -, -, hg⟩ | ⟨-, hg⟩
        · by_cases hw : w.fs.canWrite osReleaseFileT = true
          · exact Or.inr ⟨by rw [hg], hw⟩
          · left
            have hsp : (genOSRelease w.fs).2 = w.fs := by
              rw [hg]
              simp [spewFile, hw]
            rw [h2, hsp, FS.remove_of_none w.fs _ h0]
        · left
          rw [h2, hg, FS.remove_of_none w.fs _ h0]
      · exact Or.inr h
    have hoff' : ∀ p, p ≠ osReleaseFileT →
        (genOSRelease (getOSInfo w fresh).2.fs).2.file p = (genOSRelease w.fs).2.file p := by
      intro p hp
      rw [genOSRelease_file_of_ne _ p hp, genOSRelease_file_of_ne _ p hp, hoff p hp]
    have e1 : (getOSInfo (getOSInfo w fresh).2 fresh).1 =
        ⟨afterOpen (genOSRelease (getOSInfo w fresh).2.fs).2
          ((genOSRelease (getOSInfo w fresh).2.fs).2.open osReleaseFileT)
          (probeArch (getOSInfo w fresh).2.fs fresh.OS)⟩ := by
      rw [getOSInfo_of_notExist _ fresh hcanon2]
    have e2 : (getOSInfo w fresh).1 =
        ⟨afterOpen (genOSRelease w.fs).2 ((genOSRelease w.fs).2.open osReleaseFileT)
          (probeArch w.fs fresh.OS)⟩ := by
      rw [getOSInfo_of_notExist w fresh hcanon]
    rw [e1, e2, genOSRelease_open_congr hoff hcw ht, probeArch_congr _ hoff,
      afterOpen_congr _ _ hoff']

/-- C9, amended, at one file system for each of the three cases. -/
theorem getOSInfo_twice_witness :
    (getOSInfo (getOSInfo ubuntuWorld fresh).2 fresh).1 = (getOSInfo ubuntuWorld fresh).1 ∧
    (getOSInfo (getOSInfo centos7World fresh).2 fresh).1 = (getOSInfo centos7World fresh).1 ∧
    (getOSInfo (getOSInfo staleCentosWorld fresh).2 fresh).1 =
      (getOSInfo staleCentosWorld fresh).1 :=
  ⟨getOSInfo_twice ubuntuWorld (Or.inl (by decide)),
   getOSInfo_twice centos7World (Or.inr (Or.inl (by decide))),
   getOSInfo_twice staleCentosWorld (Or.inr (Or.inr (by decide)))⟩

/-- C10 as stated fails: the file `ID=ubuntu` has each key at most once, and the
file made of the long line followed by `ID=ubuntu` has the same lines and one
inserted line that matches none of the patterns; the scanner stops at that line,
so `Vendor` is empty for the second file and `ubuntu` for the first. -/
theorem scanLoop_order_insensitive_counterexample :
    KeysAtMostOnce (fileLines "ID=ubuntu\n".toList) ∧
    (∀ l ∈ [longLine], matchesNone l) ∧
    (fileLines (longLine ++ '\n' :: "ID=ubuntu\n".toList)).Perm
      (fileLines "ID=ubuntu\n".toList ++ [longLine]) ∧
    (scanLoop (longLine ++ '\n' :: "ID=ubuntu\n".toList) fresh.OS).Vendor = [] ∧
    (scanLoop "ID=ubuntu\n".toList fresh.OS).Vendor = "ubuntu".toList := by
  refine ⟨by intro k; cases k <;> decide, ?_, ?_, ?_, by decide⟩
  · intro l hl
    rw [List.mem_singleton.1 hl]
    exact matchesNone_longLine
  · rw [fileLines_longLine]
    exact @List.perm_append_comm Str [longLine] _
  · unfold scanLoop
    rw [scanLines_longLine]
    rfl

/-- C10, amended. When every line of both files is shorter than the 64 KiB token
limit of the scanner and each of the keys `PRETTY_NAME=`, `ID=` and `VERSION_ID=`
starts at most one line of a metadata file, a file whose lines are a permutation
of those lines together with inserted lines that match none of the three patterns
is scanned to the same `Name`, `Vendor` and `Version`. -/
theorem scanLoop_order_insensitive (c c' : Str) (extra : List Str) (os : OS)
    (hfit : ∀ l ∈ rawLines c, byteLen l < maxScanTokenSize)
    (hfit' : ∀ l ∈ rawLines c', byteLen l < maxScanTokenSize)
    (hone : KeysAtMostOnce (fileLines c))
    (hextra : ∀ l ∈ extra, matchesNone l)
    (hperm : (fileLines c').Perm (fileLines c ++ extra)) :
    (scanLoop c' os).Name = (scanLoop c os).Name ∧
    (scanLoop c' os).Vendor = (scanLoop c os).Vendor ∧
    (scanLoop c' os).Version = (scanLoop c os).Version := by
  rw [← scanLines_eq_fileLines c hfit] at hone hperm
  rw [← scanLines_eq_fileLines c' hfit'] at hperm
  have hcomm : ∀ x ∈ scanLines c ++ extra, ∀ y ∈ scanLines c ++ extra, ∀ z,
      scanStep (scanStep z x) y = scanStep (scanStep z y) x := by
    intro x hx y hy z
    apply scanStep_comm
    rcases List.mem_append.1 hx with hx | hx
    · rcases List.mem_append.1 hy with hy | hy
      · by_cases hxy : x = y
        · exact Or.inr (Or.inr (Or.inr hxy))
        · by_cases hcx : classify x = none
          · exact Or.inr (Or.inl hcx)
          · by_cases hcy : classify y = none
            · exact Or.inr (Or.inr (Or.inl hcy))
            · exact Or.inl (classify_fst_ne_of_keysAtMostOnce hone hx hy hxy hcx hcy)
      · exact Or.inr (Or.inr (Or.inl (classify_none_of_matchesNone (hextra y hy))))
    · exact Or.inr (Or.inl (classify_none_of_matchesNone (hextra x hx)))
  have hfold : scanLoop c' os = scanLoop c os := by
    unfold scanLoop
    rw [← hperm.symm.foldl_eq' hcomm os, List.foldl_append,
      foldl_scanStep_of_matchesNone _ _ hextra]
  rw [hfold]
  exact ⟨rfl, rfl, rfl⟩

/-- C10, amended, at the Ubuntu file, reordered and with the lines `ID_LIKE=debian`
and `VERSION="20.04.1 LTS"` inserted. -/
theorem scanLoop_order_insensitive_witness :
    (scanLoop "ID_LIKE=debian\nVERSION_ID=\"20.04\"\nID=ubuntu\nVERSION=\"20.04.1 LTS\"\nPRETTY_NAME=\"Ubuntu 20.04.1 LTS\"\n".toList fresh.OS).Name =
      (scanLoop "PRETTY_NAME=\"Ubuntu 20.04.1 LTS\"\nID=ubuntu\nVERSION_ID=\"20.04\"\n".toList
        fresh.OS).Name ∧
    (scanLoop "ID_LIKE=debian\nVERSION_ID=\"20.04\"\nID=ubuntu\nVERSION=\"20.04.1 LTS\"\nPRETTY_NAME=\"Ubuntu 20.04.1 LTS\"\n".toList fresh.OS).Vendor =
      (scanLoop "PRETTY_NAME=\"Ubuntu 20.04.1 LTS\"\nID=ubuntu\nVERSION_ID=\"20.04\"\n".toList
        fresh.OS).Vendor ∧
    (scanLoop "ID_LIKE=debian\nVERSION_ID=\"20.04\"\nID=ubuntu\nVERSION=\"20.04.1 LTS\"\nPRETTY_NAME=\"Ubuntu 20.04.1 LTS\"\n".toList fresh.OS).Version =
      (scanLoop "PRETTY_NAME=\"Ubuntu 20.04.1 LTS\"\nID=ubuntu\nVERSION_ID=\"20.04\"\n".toList
        fresh.OS).Version :=
  scanLoop_order_insensitive
    "PRETTY_NAME=\"Ubuntu 20.04.1 LTS\"\nID=ubuntu\nVERSION_ID=\"20.04\"\n".toList
    "ID_LIKE=debian\nVERSION_ID=\"20.04\"\nID=ubuntu\nVERSION=\"20.04.1 LTS\"\nPRETTY_NAME=\"Ubuntu 20.04.1 LTS\"\n".toList
    ["ID_LIKE=debian".toList, "VERSION=\"20.04.1 LTS\"".toList] fresh.OS
    (by decide) (by decide) (by intro k; cases k <;> decide) (by decide) (by decide)

/-- C11 as stated fails: for the legacy file `CentOS release 6.5 (Final)` the
captured text is `(Final)`, and no `CPE_NAME` line of the file that
`genOSRelease` writes contains it. -/
theorem genOSRelease_template_fields_counterexample :
    reCentOS6 (slurpFile centos65World.fs "/etc/centos-release") =
      some ["CentOS release 6.5 (Final)".toList, "(Final)".toList] ∧
    ¬ ∃ f, (genOSRelease centos65World.fs).2.file osReleaseFileT = some f ∧
        ∃ l ∈ linesWith "CPE_NAME=".toList f.content, "(Final)".toList <:+: l := by
  refine ⟨by decide, ?_⟩
  rintro ⟨f, hf, h⟩
  have hm : reCentOS6 (slurpFile centos65World.fs "/etc/centos-release") =
      some ["CentOS release 6.5 (Final)".toList, "(Final)".toList] := by decide
  rw [genOSRelease_of_match _ _ hm, spewFile_file_self _ _ _ (by decide)] at hf
  cases hf
  rw [(linesWith_template _ _ (sub_one_no_newline hm) (sub_one_no_newline hm)).2.2] at h
  revert h
  decide

/-- C11, amended. The content `genOSRelease` writes is the template with
group 1 of `reCentOS6` substituted at two points, the `VERSION` field and the
`PRETTY_NAME` field: for every legacy text the pattern matches, with captured
text `t`, when the write succeeds the written file has the single `VERSION`
line `VERSION="6 t"` and the single `PRETTY_NAME` line
`PRETTY_NAME="CentOS Linux 6 t"`, both containing `t`, and its single
`CPE_NAME` line is the fixed text `CPE_NAME="cpe:/o:centos:centos:6"`. -/
theorem genOSRelease_template_fields (fs : FS) (m : List Str)
    (hm : reCentOS6 (slurpFile fs "/etc/centos-release") = some m)
    (hw : fs.canWrite osReleaseFileT = true) :
    (genOSRelease fs).2.file osReleaseFileT =
      some ⟨sprintf centOS6Template [sub m 1, sub m 1], true⟩ ∧
    linesWith "VERSION=".toList (sprintf centOS6Template [sub m 1, sub m 1]) =
      ["VERSION=\"6 ".toList ++ sub m 1 ++ "\"".toList] ∧
    linesWith "PRETTY_NAME=".toList (sprintf centOS6Template [sub m 1, sub m 1]) =
      ["PRETTY_NAME=\"CentOS Linux 6 ".toList ++ sub m 1 ++ "\"".toList] ∧
    linesWith "CPE_NAME=".toList (sprintf centOS6Template [sub m 1, sub m 1]) =
      ["CPE_NAME=\"cpe:/o:centos:centos:6\"".toList] ∧
    sub m 1 <:+: "VERSION=\"6 ".toList ++ sub m 1 ++ "\"".toList ∧
    sub m 1 <:+: "PRETTY_NAME=\"CentOS Linux 6 ".toList ++ sub m 1 ++ "\"".toList := by
  obtain ⟨h1, h2, h3⟩ := linesWith_template _ _ (sub_one_no_newline hm) (sub_one_no_newline hm)
  refine ⟨?_, h1, h2, h3, ⟨_, _, rfl⟩, ⟨_, _, rfl⟩⟩
  rw [genOSRelease_of_match fs m hm]
  exact spewFile_file_self fs _ _ hw

/-- C11, amended, at `CentOS release 6.5 (Final)`, where `t` is `(Final)`. -/
theorem genOSRelease_template_fields_witness :
    (genOSRelease centos65World.fs).2.file osReleaseFileT =
      some ⟨sprintf centOS6Template ["(Final)".toList, "(Final)".toList], true⟩ ∧
    linesWith "VERSION=".toList (sprintf centOS6Template ["(Final)".toList, "(Final)".toList]) =
      ["VERSION=\"6 (Final)\"".toList] ∧
    linesWith "PRETTY_NAME=".toList
        (sprintf centOS6Template ["(Final)".toList, "(Final)".toList]) =
      ["PRETTY_NAME=\"CentOS Linux 6 (Final)\"".toList] ∧
    linesWith "CPE_NAME=".toList (sprintf centOS6Template ["(Final)".toList, "(Final)".toList]) =
      ["CPE_NAME=\"cpe:/o:centos:centos:6\"".toList] ∧
    "(Final)".toList <:+: "VERSION=\"6 (Final)\"".toList ∧
    "(Final)".toList <:+: "PRETTY_NAME=\"CentOS Linux 6 (Final)\"".toList :=
  genOSRelease_template_fields centos65World.fs
    ["CentOS release 6.5 (Final)".toList, "(Final)".toList] (by decide) (by decide)

/-- C12 as stated fails: with the vendor `centos` and the legacy content
`CentOS release 7.0 ` followed by a newline, which starts with `CentOS release X `
for `X` the run `7.0`, the text is trimmed before it is matched, the pattern
misses the space after the run, and `Release` stays empty. -/
theorem getOSInfo_centos_release_counterexample :
    (getOSInfo centos7BlankWorld fresh).1.OS.Vendor = "centos".toList ∧
    centos7BlankWorld.fs.file "/etc/centos-release" =
      some ⟨"CentOS release ".toList ++ "7.0".toList ++ ' ' :: "\n".toList, true⟩ ∧
    (∀ c ∈ "7.0".toList, DigitOrDot c) ∧
    (getOSInfo centos7BlankWorld fresh).1.OS.Release = [] ∧
    (getOSInfo centos7BlankWorld fresh).1.OS.Release ≠ "7.0".toList := by
  decide

/-- C12, amended. When the vendor parsed into a fresh record is `centos` and the
content of `/etc/centos-release` starts with `CentOS release X ` or
`CentOS Linux release X `, where `X` is a non-empty run of digits and dots
followed by a space, and a character other than white space comes somewhere after
that space, `getOSInfo` sets `Release` to exactly `X`. -/
theorem getOSInfo_centos_release (w : World) (X tail : Str)
    (hv : (getOSInfo w fresh).1.OS.Vendor = "centos".toList)
    (hX : X ≠ []) (hall : ∀ c ∈ X, DigitOrDot c)
    (htail : ∃ x ∈ tail, isSpace x = false)
    (hfile : w.fs.file "/etc/centos-release" =
        some ⟨"CentOS release ".toList ++ X ++ ' ' :: tail, true⟩ ∨
      w.fs.file "/etc/centos-release" =
        some ⟨"CentOS Linux release ".toList ++ X ++ ' ' :: tail, true⟩) :
    (getOSInfo w fresh).1.OS.Release = X := by
  obtain ⟨fs', c, hrec, hfs⟩ := getOSInfo_scanned w (by rw [hv]; simp)
  rw [hrec] at hv ⊢
  rw [(vendorSwitch_frame fs' _).2.1] at hv
  have hslurp : slurpFile fs' "/etc/centos-release" = slurpFile w.fs "/etc/centos-release" :=
    slurpFile_congr (hfs _ (by decide))
  rcases hfile with hfile | hfile
  · have hs : slurpFile w.fs "/etc/centos-release" =
        "CentOS release ".toList ++ X ++ ' ' :: tail.rdropWhile isSpace := by
      rw [slurpFile_of_file _ _ _ hfile]
      have e : ∀ t, "CentOS release ".toList ++ X ++ ' ' :: t =
          'C' :: ("entOS release ".toList ++ X ++ [' ']) ++ t := by
        intro t
        simp
      rw [e, e]
      exact trimSpace_cons_append 'C' _ tail (by decide) htail
    rw [vendorSwitch_centos fs' _ _ hv (by rw [hslurp, hs]; simp)
      (by rw [hslurp, hs]; exact reCentOS_plain X _ hX hall)]
    rfl
  · have hs : slurpFile w.fs "/etc/centos-release" =
        "CentOS Linux release ".toList ++ X ++ ' ' :: tail.rdropWhile isSpace := by
      rw [slurpFile_of_file _ _ _ hfile]
      have e : ∀ t, "CentOS Linux release ".toList ++ X ++ ' ' :: t =
          'C' :: ("entOS Linux release ".toList ++ X ++ [' ']) ++ t := by
        intro t
        simp
      rw [e, e]
      exact trimSpace_cons_append 'C' _ tail (by decide) htail
    rw [vendorSwitch_centos fs' _ _ hv (by rw [hslurp, hs]; simp)
      (by rw [hslurp, hs]; exact reCentOS_linux X _ hX hall)]
    rfl

/-- C12, amended, at `CentOS Linux release 7.9.2009 (Core)` followed by a
newline: the release is `7.9.2009`. -/
theorem getOSInfo_centos_release_witness :
    (getOSInfo centosLinux7World fresh).1.OS.Vendor = "centos".toList ∧
    centosLinux7World.fs.file "/etc/centos-release" =
      some ⟨"CentOS Linux release 7.9.2009 (Core)\n".toList, true⟩ ∧
    (getOSInfo centosLinux7World fresh).1.OS.Release = "7.9.2009".toList :=
  ⟨by decide, by decide,
   getOSInfo_centos_release centosLinux7World "7.9.2009".toList "(Core)\n".toList (by decide)
     (by decide) (by decide) (by decide) (Or.inr (by decide))⟩

/-- C13. When `/etc/os-release` exists, `getOSInfo` leaves the world as it
found it: the file system, whatever is at `/dev/shm/os-release` included, and
the variable `osRelease`, since `genOSRelease` is not called. -/
theorem getOSInfo_canonical_no_effect (w : World) (si : SysInfo)
    (hcanon : w.fs.exists osReleaseFile = true) :
    (getOSInfo w si).2 = w := by
  rw [getOSInfo_of_stat w si (notExist_eq_false_of_exists hcanon)]

/-- C13 at two file systems, one of them with a file at `/dev/shm/os-release`,
which is still there after the call. -/
theorem getOSInfo_canonical_no_effect_witness :
    canonicalStaleWorld.fs.exists osReleaseFileT = true ∧
    (getOSInfo canonicalStaleWorld fresh).2 = canonicalStaleWorld ∧
    (getOSInfo ubuntuWorld fresh).2 = ubuntuWorld :=
  ⟨by decide, getOSInfo_canonical_no_effect canonicalStaleWorld fresh (by decide),
   getOSInfo_canonical_no_effect ubuntuWorld fresh (by decide)⟩

/-- C14. On a fresh record `Release` is empty after `getOSInfo` whenever the
parsed vendor is none of `debian`, `ubuntu`, `centos`; whenever it is `centos`
and `/etc/centos-release` is absent or its text does not match `reCentOS`;
whenever it is `debian` and `/etc/debian_version` is absent; and whenever it is
`ubuntu` and `Name` has no `(` or space that a digit or dot follows. -/
theorem getOSInfo_release_unset (w : World) :
    ((getOSInfo w fresh).1.OS.Vendor ≠ "debian".toList →
      (getOSInfo w fresh).1.OS.Vendor ≠ "ubuntu".toList →
      (getOSInfo w fresh).1.OS.Vendor ≠ "centos".toList →
      (getOSInfo w fresh).1.OS.Release = []) ∧
    ((getOSInfo w fresh).1.OS.Vendor = "centos".toList →
      (w.fs.file "/etc/centos-release" = none ∨
        reCentOS (slurpFile w.fs "/etc/centos-release") = none) →
      (getOSInfo w fresh).1.OS.Release = []) ∧
    ((getOSInfo w fresh).1.OS.Vendor = "debian".toList →
      w.fs.file "/etc/debian_version" = none →
      (getOSInfo w fresh).1.OS.Release = []) ∧
    ((getOSInfo w fresh).1.OS.Vendor = "ubuntu".toList →
      ¬ HasTokenStart (getOSInfo w fresh).1.OS.Name →
      (getOSInfo w fresh).1.OS.Release = []) := by
  rcases getOSInfo_release_cases w with h | ⟨fs', os, hrec, hrel, hfs⟩
  · exact ⟨fun _ _ _ => h, fun _ _ => h, fun _ _ => h, fun _ _ => h⟩
  · rw [hrec, (vendorSwitch_frame fs' os).2.1, (vendorSwitch_frame fs' os).1]
    refine ⟨fun h1 h2 h3 => ?_, fun hv h => ?_, fun hv h => ?_, fun hv h => ?_⟩
    · rw [vendorSwitch_other fs' os h1 h2 h3]
      exact hrel
    · have hs : slurpFile fs' "/etc/centos-release" = slurpFile w.fs "/etc/centos-release" :=
        slurpFile_congr (hfs _ (by decide))
      have hnone : reCentOS (slurpFile fs' "/etc/centos-release") = none := by
        rw [hs]
        rcases h with h | h
        · rw [slurpFile_of_absent h]
          decide
        · exact h
      rw [vendorSwitch_centos_none fs' os hv hnone]
      exact hrel
    · rw [vendorSwitch_debian fs' os hv, slurpFile_congr (hfs _ (by decide)),
        slurpFile_of_absent h]
    · rw [vendorSwitch_ubuntu_none fs' os hv h]
      exact hrel

/-- C14 at one canonical file for each of the four cases. -/
theorem getOSInfo_release_unset_witness :
    (getOSInfo (vendorWorld "fedora") fresh).1.OS.Release = [] ∧
    (getOSInfo (vendorWorld "centos") fresh).1.OS.Release = [] ∧
    (getOSInfo (vendorWorld "debian") fresh).1.OS.Release = [] ∧
    (getOSInfo (vendorWorld "ubuntu") fresh).1.OS.Release = [] := by
  have hname : (getOSInfo (vendorWorld "ubuntu") fresh).1.OS.Name = "Linux".toList := by decide
  have htok : ¬ HasTokenStart "Linux".toList := by
    have h := reUbuntu_spec "Linux".toList
    have hr : reUbuntu "Linux".toList = none := by decide
    rw [hr] at h
    exact h
  exact ⟨(getOSInfo_release_unset (vendorWorld "fedora")).1 (by decide) (by decide) (by decide),
    (getOSInfo_release_unset (vendorWorld "centos")).2.1 (by decide) (Or.inl (by decide)),
    (getOSInfo_release_unset (vendorWorld "debian")).2.2.1 (by decide) (by decide),
    (getOSInfo_release_unset (vendorWorld "ubuntu")).2.2.2 (by decide) (by rw [hname]; exact htok)⟩

/-- C15. For every key `K` among `PRETTY_NAME`, `ID`, `VERSION_ID` and every
value `v` of a line (no newline) that neither starts nor ends with a double
quote, the line `K="v"` and the line `K=v` both assign `v` to the field of `K`;
and on a fresh record the values `getOSInfo` assigns to `Name`, `Vendor` and
`Version` never start or end with a double quote. -/
theorem scanStep_optional_quotes :
    (∀ (k : Key) (v : Str) (os : OS), (∀ c ∈ v, c ≠ '\n') → NoQuoteEnds v →
      scanStep os (k.literal ++ dquote :: (v ++ [dquote])) = k.assign v os ∧
      scanStep os (k.literal ++ v) = k.assign v os) ∧
    (∀ w : World, NoQuoteEnds (getOSInfo w fresh).1.OS.Name ∧
      NoQuoteEnds (getOSInfo w fresh).1.OS.Vendor ∧
      NoQuoteEnds (getOSInfo w fresh).1.OS.Version) := by
  constructor
  · intro k v os hnl hv
    have hq : ∀ c ∈ dquote :: (v ++ [dquote]), c ≠ '\n' := by
      intro c hc
      rcases List.mem_cons.1 hc with h | h
      · rw [h]; decide
      · rcases List.mem_append.1 h with h | h
        · exact hnl c h
        · rw [List.mem_singleton.1 h]; decide
    rw [scanStep_eq_classify, scanStep_eq_classify, classify_literal k _ hq,
      classify_literal k v hnl, trimQuote_quoted hv, trimQuote_self hv]
    exact ⟨rfl, rfl⟩
  · intro w
    have h0 : NoQuoteEnds ([] : Str) := by
      constructor <;> simp
    obtain ⟨fs', f, hrec, -⟩ := getOSInfo_record w fresh
    obtain ⟨p1, p2, p3, -⟩ := probeArch_frame w.fs fresh.OS
    have hp : NoQuoteEnds (probeArch w.fs fresh.OS).Name ∧
        NoQuoteEnds (probeArch w.fs fresh.OS).Vendor ∧
        NoQuoteEnds (probeArch w.fs fresh.OS).Version := by
      rw [p1, p2, p3]
      exact ⟨h0, h0, h0⟩
    rw [hrec]
    cases f with
    | none => exact hp
    | some c =>
      show NoQuoteEnds (vendorSwitch fs' (scanLoop c _)).Name ∧
        NoQuoteEnds (vendorSwitch fs' (scanLoop c _)).Vendor ∧
        NoQuoteEnds (vendorSwitch fs' (scanLoop c _)).Version
      rw [(vendorSwitch_frame fs' _).1, (vendorSwitch_frame fs' _).2.1,
        (vendorSwitch_frame fs' _).2.2.1]
      exact foldl_scanStep_noQuoteEnds _ _ hp

/-- C15 at the lines `ID="ubuntu"` and `ID=ubuntu`, and at the Ubuntu file. -/
theorem scanStep_optional_quotes_witness :
    scanStep fresh.OS "ID=\"ubuntu\"".toList = Key.assign .vendor "ubuntu".toList fresh.OS ∧
    scanStep fresh.OS "ID=ubuntu".toList = Key.assign .vendor "ubuntu".toList fresh.OS ∧
    NoQuoteEnds (getOSInfo ubuntuWorld fresh).1.OS.Name :=
  ⟨(scanStep_optional_quotes.1 .vendor "ubuntu".toList fresh.OS (by decide)
      ⟨by decide, by decide⟩).1,
   (scanStep_optional_quotes.1 .vendor "ubuntu".toList fresh.OS (by decide)
      ⟨by decide, by decide⟩).2,
   (scanStep_optional_quotes.2 ubuntuWorld).1⟩

/-- C16 at the legacy file of CentOS 6.10, `CentOS release 6.10 (Final)`: the
pattern `^CentOS release 6\.\d (.*)` wants a space right after one digit, so
`genOSRelease` returns `true`, writes nothing, and `getOSInfo` leaves a fresh
record empty. -/
theorem genOSRelease_two_digit_minor :
    slurpFile centos610World.fs "/etc/centos-release" = "CentOS release 6.10 (Final)".toList ∧
    centos610World.fs.canWrite osReleaseFileT = true ∧
    (genOSRelease centos610World.fs).1 = true ∧
    (genOSRelease centos610World.fs).2.file osReleaseFileT = none ∧
    (getOSInfo centos610World fresh).1 = fresh := by
  decide

/-- C17 as stated fails twice. The content `CentOS release 6.5 ` of the legacy
file is not empty and matches the CentOS 6 pattern, but it is trimmed before it is
matched, and `genOSRelease` returns `true`. In `readOnlyWorld` the content
matches after trimming and `genOSRelease` returns `false`, but the write fails,
its error is dropped, and the file system is as it was, without a file at
`/dev/shm/os-release`. -/
theorem genOSRelease_signal_counterexample :
    (blankRestWorld.fs.file "/etc/centos-release" =
        some ⟨"CentOS release 6.5 ".toList, true⟩ ∧
      "CentOS release 6.5 ".toList ≠ [] ∧
      (reCentOS6 "CentOS release 6.5 ".toList).isSome = true ∧
      (genOSRelease blankRestWorld.fs).1 = true) ∧
    (readOnlyWorld.fs.file "/etc/centos-release" =
        some ⟨"CentOS release 6.5 (Final)".toList, true⟩ ∧
      (reCentOS6 "CentOS release 6.5 (Final)".toList).isSome = true ∧
      (genOSRelease readOnlyWorld.fs).1 = false ∧
      (genOSRelease readOnlyWorld.fs).2.file osReleaseFileT = none ∧
      ∀ p ∈ ["/etc/centos-release", osReleaseFile, osReleaseFileT],
        (genOSRelease readOnlyWorld.fs).2.file p = readOnlyWorld.fs.file p) := by
  decide

/-- C17, amended. The function `genOSRelease` returns `false` exactly when
`/etc/centos-release` can be read and its content, with the white space at both
ends trimmed, matches `reCentOS6`. In that case the file system changes only if
`/dev/shm/os-release` can be written: then that path holds the filled template
afterwards and every other path is as before, and otherwise nothing changes. In
every other case it returns `true` and leaves the file system unchanged. -/
theorem genOSRelease_signal (fs : FS) :
    ((genOSRelease fs).1 = false ↔
      ∃ c m, fs.open "/etc/centos-release" = some c ∧ reCentOS6 (trimSpace c) = some m) ∧
    (∀ c m, fs.open "/etc/centos-release" = some c → reCentOS6 (trimSpace c) = some m →
      (fs.canWrite osReleaseFileT = true →
        (genOSRelease fs).2 =
          { fs with file := fun p =>
              if p = osReleaseFileT then
                some ⟨sprintf centOS6Template [sub m 1, sub m 1], true⟩
              else fs.file p }) ∧
      (fs.canWrite osReleaseFileT = false → (genOSRelease fs).2 = fs)) ∧
    ((¬ ∃ c m, fs.open "/etc/centos-release" = some c ∧ reCentOS6 (trimSpace c) = some m) →
      genOSRelease fs = (true, fs)) := by
  have hmatch : ∀ c m, fs.open "/etc/centos-release" = some c →
      reCentOS6 (trimSpace c) = some m →
      reCentOS6 (slurpFile fs "/etc/centos-release") = some m := by
    intro c m hc hm
    simp only [slurpFile, hc]
    exact hm
  have hconv : ∀ m, reCentOS6 (slurpFile fs "/etc/centos-release") = some m →
      ∃ c, fs.open "/etc/centos-release" = some c ∧ reCentOS6 (trimSpace c) = some m := by
    intro m hm
    unfold slurpFile at hm
    cases ho : fs.open "/etc/centos-release" with
    | none =>
      rw [ho] at hm
      exact absurd hm (by simp [reCentOS6, stripLit])
    | some c =>
      rw [ho] at hm
      exact ⟨c, rfl, hm⟩
  refine ⟨?_, ?_, ?_⟩
  · constructor
    · intro hf
      rcases genOSRelease_cases fs with ⟨m, hm, -, -⟩ | ⟨-, hg⟩
      · obtain ⟨c, hc, hcm⟩ := hconv m hm
        exact ⟨c, m, hc, hcm⟩
      · rw [hg] at hf
        exact absurd hf (by simp)
    · rintro ⟨c, m, hc, hm⟩
      rw [genOSRelease_of_match fs m (hmatch c m hc hm)]
  · intro c m hc hm
    rw [genOSRelease_of_match fs m (hmatch c m hc hm)]
    constructor
    · intro hw
      simp only [spewFile, hw, if_true]
    · intro hw
      simp only [spewFile, hw]
      rfl
  · intro hno
    rcases genOSRelease_cases fs with ⟨m, hm, -, -⟩ | ⟨-, hg⟩
    · obtain ⟨c, hc, hcm⟩ := hconv m hm
      exact absurd ⟨c, m, hc, hcm⟩ hno
    · exact hg

/-- C17, amended, at a CentOS 6.5 legacy file, where the file is written, at the
same with no file writable, and at a CentOS 7.0 one, where nothing changes. -/
theorem genOSRelease_signal_witness :
    (genOSRelease centos65World.fs).1 = false ∧
    (genOSRelease centos65World.fs).2.file osReleaseFileT =
      some ⟨sprintf centOS6Template ["(Final)".toList, "(Final)".toList], true⟩ ∧
    (genOSRelease readOnlyWorld.fs).2 = readOnlyWorld.fs ∧
    genOSRelease centos7World.fs = (true, centos7World.fs) :=
  ⟨(genOSRelease_signal centos65World.fs).1.2
      ⟨"CentOS release 6.5 (Final)".toList,
        ["CentOS release 6.5 (Final)".toList, "(Final)".toList], by decide, by decide⟩,
   by
    rw [((genOSRelease_signal centos65World.fs).2.1 "CentOS release 6.5 (Final)".toList
      ["CentOS release 6.5 (Final)".toList, "(Final)".toList] (by decide) (by decide)).1
      (by decide)]
    rfl,
   ((genOSRelease_signal readOnlyWorld.fs).2.1 "CentOS release 6.5 (Final)".toList
      ["CentOS release 6.5 (Final)".toList, "(Final)".toList] (by decide) (by decide)).2
      (by decide),
   (genOSRelease_signal centos7World.fs).2.2 (by
    rintro ⟨c, m, hc, hm⟩
    have h0 : centos7World.fs.open "/etc/centos-release" =
        some "CentOS release 7.0 (Final)".toList := by decide
    have h1 : reCentOS6 (trimSpace "CentOS release 7.0 (Final)".toList) = none := by decide
    rw [h0] at hc
    cases hc
    rw [h1] at hm
    cases hm)⟩

/-- C18 as stated fails: in the file with the lines `ID=a`, the long line and
`ID=b` the last line that matches the `ID` pattern is `ID=b`, but the scanner
stops at the long line and `Vendor` is `a`. -/
theorem scanLoop_last_wins_counterexample :
    fileLines splitVendorFile =
      ["ID=a".toList, longLine, "ID=b".toList] ∧
    reID "ID=b".toList = some ["ID=b".toList, "b".toList] ∧
    (scanLoop splitVendorFile fresh.OS).Vendor =
      "a".toList ∧
    ¬ LastWins reID (fileLines splitVendorFile)
      fresh.OS.Vendor
      (scanLoop splitVendorFile
        fresh.OS).Vendor := by
  have hl := fileLines_splitVendorFile
  have hv := scanLoop_splitVendorFile
  refine ⟨hl, by decide, hv, fun h => ?_⟩
  have := h.1 ["ID=a".toList, longLine] "ID=b".toList [] ["ID=b".toList, "b".toList]
    hl (by decide) (by simp)
  rw [hv] at this
  exact absurd this (by decide)

/-- C18, amended. Let `pre` be the lines of the file before its first line of
64 KiB or more, all lines of the file when none is that long. After the scanner
loop each of `Name`, `Vendor` and `Version` is the quote-stripped capture of the
last line of `pre` that matches its pattern, and keeps its prior value when no
line of `pre` matches. -/
theorem scanLoop_last_wins (c : Str) (os : OS) (pre rest : List Str)
    (hsplit : rawLines c = pre ++ rest)
    (hpre : ∀ l ∈ pre, byteLen l < maxScanTokenSize)
    (hrest : ∀ l, rest.head? = some l → ¬ byteLen l < maxScanTokenSize) :
    LastWins rePrettyName (pre.map dropCR) os.Name (scanLoop c os).Name ∧
    LastWins reID (pre.map dropCR) os.Vendor (scanLoop c os).Vendor ∧
    LastWins reVersionID (pre.map dropCR) os.Version (scanLoop c os).Version := by
  rw [← scanLines_of_split c pre rest hsplit hpre hrest]
  exact scanLoop_lastWins c os

/-- C18, amended, at a file in which every key occurs twice and at a file
without `ID`, where every line is short and `pre` is all lines of the file, and
at the file with the lines `ID=a`, the long line and `ID=b`, where `pre` is the
first line. -/
theorem scanLoop_last_wins_witness :
    (scanLoop repeatedKeys fresh.OS).Name = "Second".toList ∧
    (scanLoop repeatedKeys fresh.OS).Vendor = "ubuntu".toList ∧
    (scanLoop repeatedKeys fresh.OS).Version = "2".toList ∧
    (scanLoop "NAME=x\n".toList fresh.OS).Vendor = [] ∧
    (scanLoop splitVendorFile fresh.OS).Vendor = "a".toList :=
  ⟨   (scanLoop_last_wins repeatedKeys fresh.OS (rawLines repeatedKeys) [] (by simp) (by decide)
      (by simp)).1.1
      ["ID=debian".toList, "PRETTY_NAME=\"First\"".toList, "VERSION_ID=1".toList]
      "PRETTY_NAME=\"Second\"".toList
      ["VERSION_ID=\"2\"".toList, "ID=ubuntu".toList, "NAME=x".toList]
      ["PRETTY_NAME=\"Second\"".toList, "\"Second\"".toList] (by decide) (by decide)
      (by decide),
   (scanLoop_last_wins repeatedKeys fresh.OS (rawLines repeatedKeys) [] (by simp) (by decide)
      (by simp)).2.1.1
      ["ID=debian".toList, "PRETTY_NAME=\"First\"".toList, "VERSION_ID=1".toList,
        "PRETTY_NAME=\"Second\"".toList, "VERSION_ID=\"2\"".toList]
      "ID=ubuntu".toList ["NAME=x".toList]
      ["ID=ubuntu".toList, "ubuntu".toList] (by decide) (by decide) (by decide),
   (scanLoop_last_wins repeatedKeys fresh.OS (rawLines repeatedKeys) [] (by simp) (by decide)
      (by simp)).2.2.1
      ["ID=debian".toList, "PRETTY_NAME=\"First\"".toList, "VERSION_ID=1".toList,
        "PRETTY_NAME=\"Second\"".toList]
      "VERSION_ID=\"2\"".toList ["ID=ubuntu".toList, "NAME=x".toList]
      ["VERSION_ID=\"2\"".toList, "\"2\"".toList] (by decide) (by decide) (by decide),
   (scanLoop_last_wins "NAME=x\n".toList fresh.OS (rawLines "NAME=x\n".toList) [] (by simp)
      (by decide) (by simp)).2.1.2 (by decide),
   (scanLoop_last_wins splitVendorFile fresh.OS ["ID=a".toList] [longLine, "ID=b".toList]
      rawLines_splitVendorFile (by decide)
      (fun l hl => by cases hl; exact not_fits_longLine)).2.1.1
      [] "ID=a".toList [] ["ID=a".toList, "a".toList] rfl (by decide) (by simp)⟩

end Sysinfo
